import Mathlib

/-!
# Shape arithmetic of `ExpandDimsOp` and `SqueezeOp`

A shallow embedding of `caffe2/operators/expand_squeeze_dims_op.h`.

* C `int` values (the entries of `dims_`, the counters `i`, `j`) and `TIndex`
  values (the 64-bit entries of a tensor shape) are integers of `Int`.
  The places where the width of a machine integer shows are explicit:
  `toSizeT` (conversion of an `int` to the 64-bit unsigned `size_t`, modulo
  `2^64`) and `toInt` (the 32-bit value of a sum of `int`s, or of a `TIndex`
  stored into an `int`, modulo `2^32`). The numbers printed by the rank checks
  (`1 + dims_.back()`, `dims_.back() + 1`) are 32-bit sums. Sizes of vectors are
  natural numbers; a sum of two of them is far below `2^64`.
* A `CAFFE_ENFORCE` that does not hold throws; a throwing run is the
  `Except.error` of the enforced condition.
* `std::vector::insert` at an iterator beyond the end of the vector has no
  defined behaviour; `insertAt` returns `none` there.
-/

namespace caffe2

/-! ## Machine integers -/

/-- The value of a signed integer after conversion to `size_t` (64 bits,
unsigned): reduction modulo `2^64`. -/
def toSizeT (z : Int) : Nat := (z % 18446744073709551616).toNat

/-- The value of a `TIndex` (64 bits, signed) after it is stored into an `int`
(32 bits, signed), and the value of a sum of two `int`s as a 32-bit machine
computes it: the two's complement representative modulo `2^32`. -/
def toInt (z : Int) : Int := (z + 2147483648) % 4294967296 - 2147483648

/-- The values a C `int` can hold. -/
def IsInt (z : Int) : Prop := -2147483648 ≤ z ∧ z < 2147483648

instance (z : Int) : Decidable (IsInt z) :=
  inferInstanceAs (Decidable (-2147483648 ≤ z ∧ z < 2147483648))

/-! ## Failures -/

deriving instance DecidableEq for Except

/-- The two `CAFFE_ENFORCE` failures of the constructors. -/
inductive ConfigError where
  /-- The check `CAFFE_ENFORCE(originalSize > 0, ...)` failed. -/
  | Empty
  /-- The check `CAFFE_ENFORCE(dims_.front() >= 0, ...)` failed. -/
  | NegativeAxis
  deriving DecidableEq, Repr

/-- The text each constructor failure is thrown with. -/
def ConfigError.message : ConfigError → String
  | .Empty => "Parameter `dims` must be provided."
  | .NegativeAxis => "Dimension ids must be non-negative."

/-- The text of the `LOG(WARNING)` line of the constructors. -/
def repeatedWarning : String := "Parameter `dims` has repeated dimensions."

/-- The ways a run stops without returning `true`. -/
inductive RuntimeError where
  /-- The check `CAFFE_ENFORCE_GE` of `ExpandDimsOp::RunOnDevice`, or `CAFFE_ENFORCE_GT`
  of `SqueezeOp::RunOnDevice`, failed; `needed` is the number printed after
  "Input needs at least ". -/
  | InsufficientRank (needed : Int)
  /-- The check `CAFFE_ENFORCE_EQ(inputDims[i], 1, ...)` failed: "Dimension `axis` of
  input must be 1 instead of `size`." -/
  | NonUnitDimension (axis : Int) (size : Int)
  /-- Not an exception: `newDims.insert(newDims.begin() + dim, 1)` was reached
  with `dim` outside `0..newDims.size()`, which has no defined behaviour. -/
  | InsertOutOfRange (dim : Int) (size : Nat)
  deriving DecidableEq, Repr

/-! ## Tensors (external collaborator) -/

/-- A tensor as this header sees it: its shape (`dims()`, a vector of `TIndex`)
and its buffer, whose content is never inspected. -/
structure Tensor where
  dims : List Int
  data : List Nat
  deriving DecidableEq, Repr

/-- The rank, `Tensor::ndim()`, an `int`. -/
def Tensor.ndim (t : Tensor) : Int := (t.dims.length : Int)

/-- Modelled from the spec: `Tensor::CopyFrom` (caffe2/core/tensor.h is not among
the sources), "full deep content+shape duplication, assumed synchronous and
total". -/
def Tensor.CopyFrom (_self : Tensor) (src : Tensor) : Tensor := src

/-- Modelled from the spec: `Tensor::Reshape` (caffe2/core/tensor.h is not among
the sources), "pure metadata replacement"; that the element count is kept is a
precondition the caller has to establish, not something checked here. -/
def Tensor.Reshape (self : Tensor) (newDims : List Int) : Tensor :=
  { self with dims := newDims }

/-- The number of elements a shape describes. -/
def numel (shape : List Int) : Int := shape.prod

/-! ## Vector primitives -/

/-- The call `v.front()`; on an empty vector the source has no defined behaviour and the
constructors never get there (`originalSize > 0` is enforced first). -/
def front : List Int → Int
  | [] => 0
  | a :: _ => a

/-- The call `v.back()`; on an empty vector the source has no defined behaviour. -/
def back : List Int → Int
  | [] => 0
  | [a] => a
  | _ :: b :: t => back (b :: t)

/-- The call `std::sort(begin, end)`: insertion of each element into the sorted rest. -/
def sort (v : List Int) : List Int := v.insertionSort (· ≤ ·)

/-- The tail of `std::unique`: drops every element equal to the element kept
last (`prev`). -/
def uniqueAux (prev : Int) : List Int → List Int
  | [] => []
  | b :: t => if prev = b then uniqueAux prev t else b :: uniqueAux b t

/-- The call `v.erase(std::unique(v.begin(), v.end()), v.end())`: of every run of equal
neighbours only the first stays. -/
def unique : List Int → List Int
  | [] => []
  | a :: t => a :: uniqueAux a t

/-- The call `v.insert(v.begin() + pos, x)`: defined for `0 ≤ pos ≤ v.size()` only. -/
def insertAt (v : List Int) (pos : Int) (x : Int) : Option (List Int) :=
  if 0 ≤ pos ∧ pos ≤ (v.length : Int) then
    some (v.take pos.toNat ++ x :: v.drop pos.toNat)
  else none

/-! ## Construction (identical in both operators) -/

/-- What a constructor leaves behind: the lines it logged and either the stored
`dims_` or the failure it threw. -/
structure Constructed where
  log : List String
  dims_ : Except ConfigError (List Int)

/-- The body shared, line for line, by `ExpandDimsOp::ExpandDimsOp` and
`SqueezeOp::SqueezeOp`; `raw` is `GetRepeatedArgument<int>("dims")`. -/
def initDims (raw : List Int) : Constructed :=
  let originalSize := raw.length
  if originalSize > 0 then
    let dims_ := unique (sort raw)
    let log := if dims_.length < originalSize then [repeatedWarning] else []
    if front dims_ ≥ 0 then
      { log := log, dims_ := .ok dims_ }
    else
      { log := log, dims_ := .error .NegativeAxis }
  else
    { log := [], dims_ := .error .Empty }

/-- The configuration of an `ExpandDimsOp`: its private `dims_`. -/
structure ExpandDimsOp where
  dims_ : List Int
  deriving DecidableEq, Repr

/-- The configuration of a `SqueezeOp`: its private `dims_`. -/
structure SqueezeOp where
  dims_ : List Int
  deriving DecidableEq, Repr

/-- The constructor `ExpandDimsOp::ExpandDimsOp`. -/
def ExpandDimsOp.ctor (raw : List Int) : Except ConfigError ExpandDimsOp :=
  (initDims raw).dims_.map ExpandDimsOp.mk

/-- The constructor `SqueezeOp::SqueezeOp`. -/
def SqueezeOp.ctor (raw : List Int) : Except ConfigError SqueezeOp :=
  (initDims raw).dims_.map SqueezeOp.mk

/-! ## Running -/

/-- The outcome of `RunOnDevice`: the output tensor as the run leaves it and
either the returned `bool` or the failure. -/
structure Ran where
  output : Tensor
  result : Except RuntimeError Bool

/-- The loop `for (const auto dim : dims_) newDims.insert(newDims.begin() + dim, 1)`. -/
def ExpandDimsOp.insertLoop : List Int → List Int → Except RuntimeError (List Int)
  | [], newDims => .ok newDims
  | dim :: rest, newDims =>
    match insertAt newDims dim 1 with
    | some newDims1 => ExpandDimsOp.insertLoop rest newDims1
    | none => .error (.InsertOutOfRange dim newDims.length)

/-- The method `ExpandDimsOp::RunOnDevice`, from the tensor in input slot 0 and the tensor
currently in output slot 0. The number printed by the failing check is
`1 + dims_.back()`, a 32-bit sum, converted to `size_t`, minus `dims_.size()`.
The comparison of the check is made over the integers: with the 32-bit sum
`dims_.back() + 1` it comes out the same unless `dims_.back()` is `INT_MAX` and
the rank plus the number of axes reaches `2^31` (`expand_guard_int_sum`). -/
def ExpandDimsOp.RunOnDevice (op : ExpandDimsOp) (input output : Tensor) : Ran :=
  let output := output.CopyFrom input
  if op.dims_.isEmpty then
    { output := output, result := .ok true }
  else
    let newDims := input.dims
    if input.dims.length + op.dims_.length ≥ toSizeT (back op.dims_ + 1) then
      match ExpandDimsOp.insertLoop op.dims_ newDims with
      | .ok newDims => { output := output.Reshape newDims, result := .ok true }
      | .error e => { output := output, result := .error e }
    else
      { output := output,
        result := .error (.InsufficientRank
          (toSizeT ((toSizeT (toInt (1 + back op.dims_)) : Int) - (op.dims_.length : Int)))) }

/-- The loop of `SqueezeOp::ComputeDims` from the state `(i, j, newDims)`, over the
entries `inputDims[i], inputDims[i+1], ...` still to visit; it ends with the
final `newDims` and the final cursor `j`. -/
def SqueezeOp.ComputeDims.loop (dims : List Int) :
    List Int → Nat → Nat → List Int → Except RuntimeError (List Int × Nat)
  | [], _, j, newDims => .ok (newDims, j)
  | d :: rest, i, j, newDims =>
    if j < dims.length ∧ dims.getD j 0 = (i : Int) then
      if d = 1 then
        SqueezeOp.ComputeDims.loop dims rest (i + 1) (j + 1) newDims
      else
        .error (.NonUnitDimension (i : Int) d)
    else
      SqueezeOp.ComputeDims.loop dims rest (i + 1) j (newDims ++ [toInt d])

/-- The function `SqueezeOp::ComputeDims`: the result is a vector of `int`. -/
def SqueezeOp.ComputeDims (inputDims : List Int) (dims : List Int) :
    Except RuntimeError (List Int) :=
  (SqueezeOp.ComputeDims.loop dims inputDims 0 0 []).map Prod.fst

/-- The method `SqueezeOp::RunOnDevice`, from the tensor in input slot 0 and the tensor
currently in output slot 0. The number printed by the failing check is the
32-bit sum `dims_.back() + 1`. -/
def SqueezeOp.RunOnDevice (op : SqueezeOp) (input output : Tensor) : Ran :=
  let output := output.CopyFrom input
  if input.ndim > back op.dims_ then
    match SqueezeOp.ComputeDims input.dims op.dims_ with
    | .ok newDims => { output := output.Reshape newDims, result := .ok true }
    | .error e => { output := output, result := .error e }
  else
    { output := output, result := .error (.InsufficientRank (toInt (back op.dims_ + 1))) }

/-! ## Runs on the tensors of a workspace -/

/-- An operator as the graph wires it: the operator object, the tensors of the
workspace by number, and the numbers of the tensor `Input(0)` refers to and of
the tensor `Output(0)` points to. The two numbers may be the same (an in-place
call). -/
structure Wired (Op : Type) where
  op : Op
  blobs : Nat → Tensor
  input0 : Nat
  output0 : Nat

/-- The tensor behind `Input(0)`. -/
def Wired.Input {Op : Type} (w : Wired Op) : Tensor := w.blobs w.input0

/-- The tensor behind `Output(0)`. -/
def Wired.Output {Op : Type} (w : Wired Op) : Tensor := w.blobs w.output0

/-- A write through the pointer `Output(0)`: the tensor of that number is
replaced, whoever else refers to it. -/
def Wired.setOutput {Op : Type} (w : Wired Op) (t : Tensor) : Wired Op :=
  { w with blobs := fun b => if b = w.output0 then t else w.blobs b }

/-- What a run leaves behind: the wired operator after it and the returned
`bool` or the failure. -/
structure Executed (Op : Type) where
  after : Wired Op
  result : Except RuntimeError Bool

/-- The method `ExpandDimsOp::RunOnDevice` statement by statement on a wired
operator: `input` is a reference, read where the source reads it, and every
write goes through `output`. -/
def ExpandDimsOp.execute (w : Wired ExpandDimsOp) : Executed ExpandDimsOp :=
  let w1 := w.setOutput (w.Output.CopyFrom w.Input)
  if w1.op.dims_.isEmpty then
    { after := w1, result := .ok true }
  else
    let newDims := w1.Input.dims
    if w1.Input.dims.length + w1.op.dims_.length ≥ toSizeT (back w1.op.dims_ + 1) then
      match ExpandDimsOp.insertLoop w1.op.dims_ newDims with
      | .ok newDims => { after := w1.setOutput (w1.Output.Reshape newDims), result := .ok true }
      | .error e => { after := w1, result := .error e }
    else
      { after := w1,
        result := .error (.InsufficientRank
          (toSizeT ((toSizeT (toInt (1 + back w1.op.dims_)) : Int) -
            (w1.op.dims_.length : Int)))) }

/-- The method `SqueezeOp::RunOnDevice` statement by statement on a wired
operator: `input` is a reference, read where the source reads it, and every
write goes through `output`. -/
def SqueezeOp.execute (w : Wired SqueezeOp) : Executed SqueezeOp :=
  let w1 := w.setOutput (w.Output.CopyFrom w.Input)
  if w1.Input.ndim > back w1.op.dims_ then
    match SqueezeOp.ComputeDims w1.Input.dims w1.op.dims_ with
    | .ok newDims => { after := w1.setOutput (w1.Output.Reshape newDims), result := .ok true }
    | .error e => { after := w1, result := .error e }
  else
    { after := w1, result := .error (.InsufficientRank (toInt (back w1.op.dims_ + 1))) }

/-! ## Vocabulary of the statements -/

/-- Strictly increasing. -/
def StrictlyIncreasing (v : List Int) : Prop := v.Pairwise (· < ·)

instance (v : List Int) : Decidable (StrictlyIncreasing v) :=
  inferInstanceAs (Decidable (v.Pairwise (· < ·)))

/-- An axis set as section 3 of the specification describes it: strictly
increasing, non-negative, non-empty. -/
structure AxisSet (A : List Int) : Prop where
  increasing : StrictlyIncreasing A
  nonneg : ∀ a ∈ A, 0 ≤ a
  nonempty : A ≠ []

/-- The relation between the two counters of `SqueezeOp::ComputeDims` at the
head of its loop: the cursor `j` is within `dims`, the entries before the cursor
are below `i` and those from the cursor on are at least `i`. -/
def Cursor (dims : List Int) (i j : Nat) : Prop :=
  j ≤ dims.length ∧ (∀ x ∈ dims.take j, x < (i : Int)) ∧ (∀ x ∈ dims.drop j, (i : Int) ≤ x)

/-- The entries of `shape` at the positions that are not in `axes`, in order;
`i` is the position of the first entry. -/
def keepFrom (axes : List Int) : Nat → List Int → List Int
  | _, [] => []
  | i, d :: rest =>
    if (i : Int) ∈ axes then keepFrom axes (i + 1) rest
    else d :: keepFrom axes (i + 1) rest

/-- The entries of `shape` at the positions that are not in `axes`, in order. -/
def keep (axes : List Int) (shape : List Int) : List Int := keepFrom axes 0 shape

end caffe2

/-! # Lemmas -/

namespace caffe2

/-! ## Sorting and `unique` -/

theorem mem_uniqueAux_of (x : Int) : ∀ (l : List Int) (p : Int), x ∈ uniqueAux p l → x ∈ l := by
  intro l
  induction l with
  | nil => intro p h; simp [uniqueAux] at h
  | cons b t ih =>
    intro p h
    unfold uniqueAux at h
    split at h
    · exact List.mem_cons_of_mem _ (ih p h)
    · rcases List.mem_cons.1 h with h | h
      · simp [h]
      · exact List.mem_cons_of_mem _ (ih b h)

theorem mem_uniqueAux (x : Int) : ∀ (l : List Int) (p : Int), x ∈ l → x = p ∨ x ∈ uniqueAux p l := by
  intro l
  induction l with
  | nil => intro p h; simp at h
  | cons b t ih =>
    intro p h
    unfold uniqueAux
    rcases List.mem_cons.1 h with h | h
    · by_cases hp : p = b
      · left; rw [h, hp]
      · right; simp [hp, h]
    · by_cases hp : p = b
      · simp only [hp, if_true]
        rcases ih p h with h1 | h1
        · left; rw [h1, hp]
        · right; rw [← hp]; exact h1
      · simp only [hp, if_false]
        rcases ih b h with h1 | h1
        · right; simp [h1]
        · right; exact List.mem_cons_of_mem _ h1

theorem mem_unique (x : Int) (l : List Int) : x ∈ unique l ↔ x ∈ l := by
  cases l with
  | nil => simp [unique]
  | cons a t =>
    simp only [unique, List.mem_cons]
    constructor
    · rintro (h | h)
      · exact Or.inl h
      · exact Or.inr (mem_uniqueAux_of x t a h)
    · rintro (h | h)
      · exact Or.inl h
      · exact mem_uniqueAux x t a h

theorem uniqueAux_increasing : ∀ (l : List Int) (p : Int), l.Pairwise (· ≤ ·) → (∀ x ∈ l, p ≤ x) →
    (uniqueAux p l).Pairwise (· < ·) ∧ ∀ x ∈ uniqueAux p l, p < x := by
  intro l
  induction l with
  | nil => intro p _ _; simp [uniqueAux]
  | cons b t ih =>
    intro p hs hp
    rw [List.pairwise_cons] at hs
    unfold uniqueAux
    by_cases hpb : p = b
    · simp only [hpb, if_true]
      exact ih b hs.2 hs.1
    · simp only [hpb, if_false]
      have hb : p < b := lt_of_le_of_ne (hp b (List.mem_cons_self _ _)) hpb
      obtain ⟨h1, h2⟩ := ih b hs.2 hs.1
      refine ⟨List.pairwise_cons.2 ⟨h2, h1⟩, ?_⟩
      intro x hx
      rcases List.mem_cons.1 hx with hx | hx
      · rw [hx]; exact hb
      · exact lt_trans hb (h2 x hx)

theorem unique_increasing (l : List Int) (hs : l.Pairwise (· ≤ ·)) :
    StrictlyIncreasing (unique l) := by
  cases l with
  | nil => simp [unique, StrictlyIncreasing]
  | cons a t =>
    rw [List.pairwise_cons] at hs
    obtain ⟨h1, h2⟩ := uniqueAux_increasing t a hs.2 hs.1
    exact List.pairwise_cons.2 ⟨h2, h1⟩

theorem sort_pairwise (raw : List Int) : (sort raw).Pairwise (· ≤ ·) :=
  List.sorted_insertionSort (· ≤ ·) raw

theorem mem_sort (x : Int) (raw : List Int) : x ∈ sort raw ↔ x ∈ raw :=
  List.mem_insertionSort (· ≤ ·)

theorem length_sort (raw : List Int) : (sort raw).length = raw.length :=
  List.length_insertionSort (· ≤ ·) raw

theorem mem_unique_sort (x : Int) (raw : List Int) : x ∈ unique (sort raw) ↔ x ∈ raw := by
  rw [mem_unique, mem_sort]

theorem unique_sort_increasing (raw : List Int) : StrictlyIncreasing (unique (sort raw)) :=
  unique_increasing _ (sort_pairwise raw)

theorem front_mem : ∀ (l : List Int), l ≠ [] → front l ∈ l := by
  intro l h
  cases l with
  | nil => exact absurd rfl h
  | cons a t => simp [front]

theorem front_le (l : List Int) (hs : StrictlyIncreasing l) : ∀ x ∈ l, front l ≤ x := by
  cases l with
  | nil => intro x hx; simp at hx
  | cons a t =>
    intro x hx
    have hs1 := List.pairwise_cons.1 hs
    rcases List.mem_cons.1 hx with hx | hx
    · simp [front, hx]
    · exact le_of_lt (hs1.1 x hx)

theorem unique_sort_ne_nil (raw : List Int) (h : raw ≠ []) : unique (sort raw) ≠ [] := by
  obtain ⟨a, ha⟩ := List.exists_mem_of_ne_nil raw h
  exact List.ne_nil_of_mem ((mem_unique_sort a raw).2 ha)

theorem front_nonneg_iff (raw : List Int) (h : raw ≠ []) :
    0 ≤ front (unique (sort raw)) ↔ ∀ a ∈ raw, 0 ≤ a := by
  constructor
  · intro h0 a ha
    exact le_trans h0 (front_le _ (unique_sort_increasing raw) a ((mem_unique_sort a raw).2 ha))
  · intro hall
    exact hall _ ((mem_unique_sort _ raw).1 (front_mem _ (unique_sort_ne_nil raw h)))

/-- What `initDims` stores, case by case. -/
theorem initDims_dims (raw : List Int) :
    (initDims raw).dims_ =
      if raw = [] then .error .Empty
      else if ∀ a ∈ raw, 0 ≤ a then .ok (unique (sort raw))
      else .error .NegativeAxis := by
  by_cases h : raw = []
  · subst h; simp [initDims]
  · have hlen : raw.length > 0 := List.length_pos.2 h
    have hf := front_nonneg_iff raw h
    by_cases hall : ∀ a ∈ raw, 0 ≤ a
    · have h0 : front (unique (sort raw)) ≥ 0 := hf.2 hall
      simp only [initDims, hlen, if_true, h0, h, if_false]
      rw [if_pos hall]
    · have h0 : ¬ front (unique (sort raw)) ≥ 0 := fun h1 => hall (hf.1 h1)
      simp only [initDims, hlen, if_true, h0, h, if_false]
      rw [if_neg hall]

theorem initDims_ok (raw A : List Int) (h : (initDims raw).dims_ = .ok A) :
    raw ≠ [] ∧ (∀ a ∈ raw, 0 ≤ a) ∧ A = unique (sort raw) := by
  rw [initDims_dims] at h
  by_cases h1 : raw = []
  · simp [h1] at h
  · by_cases h2 : ∀ a ∈ raw, 0 ≤ a
    · rw [if_neg h1, if_pos h2] at h
      exact ⟨h1, h2, (Except.ok.inj h).symm⟩
    · rw [if_neg h1, if_neg h2] at h
      cases h

theorem initDims_axisSet (raw A : List Int) (h : (initDims raw).dims_ = .ok A) : AxisSet A := by
  obtain ⟨h1, h2, h3⟩ := initDims_ok raw A h
  subst h3
  exact ⟨unique_sort_increasing raw, fun a ha => h2 a ((mem_unique_sort a raw).1 ha),
    unique_sort_ne_nil raw h1⟩

theorem expand_ctor_ok (raw : List Int) (op : ExpandDimsOp) :
    ExpandDimsOp.ctor raw = .ok op ↔ (initDims raw).dims_ = .ok op.dims_ := by
  unfold ExpandDimsOp.ctor
  cases h : (initDims raw).dims_ with
  | error e => simp [Except.map]
  | ok A =>
    simp only [Except.map, Except.ok.injEq]
    constructor
    · intro h1; rw [← h1]
    · intro h1; cases op; simp_all

theorem squeeze_ctor_ok (raw : List Int) (op : SqueezeOp) :
    SqueezeOp.ctor raw = .ok op ↔ (initDims raw).dims_ = .ok op.dims_ := by
  unfold SqueezeOp.ctor
  cases h : (initDims raw).dims_ with
  | error e => simp [Except.map]
  | ok A =>
    simp only [Except.map, Except.ok.injEq]
    constructor
    · intro h1; rw [← h1]
    · intro h1; cases op; simp_all

/-! ## `back` of an increasing vector -/

theorem back_cons_cons (a b : Int) (t : List Int) : back (a :: b :: t) = back (b :: t) := rfl

theorem back_mem : ∀ (l : List Int), l ≠ [] → back l ∈ l := by
  intro l
  induction l with
  | nil => intro h; exact absurd rfl h
  | cons a t ih =>
    intro _
    cases t with
    | nil => simp [back]
    | cons b t =>
      rw [back_cons_cons]
      exact List.mem_cons_of_mem _ (ih (List.cons_ne_nil _ _))

theorem le_back : ∀ (l : List Int), StrictlyIncreasing l → ∀ x ∈ l, x ≤ back l := by
  intro l
  induction l with
  | nil => intro _ x hx; simp at hx
  | cons a t ih =>
    intro hs x hx
    have hs1 := List.pairwise_cons.1 hs
    cases t with
    | nil =>
      simp only [List.mem_singleton] at hx
      simp [back, hx]
    | cons b t =>
      rw [back_cons_cons]
      rcases List.mem_cons.1 hx with hx | hx
      · have h1 : a < b := hs1.1 b (List.mem_cons_self _ _)
        have h2 : b ≤ back (b :: t) := ih hs1.2 b (List.mem_cons_self _ _)
        rw [hx]; omega
      · exact ih hs1.2 x hx

theorem head_add_length_le_back : ∀ (t : List Int) (a : Int), StrictlyIncreasing (a :: t) →
    a + (t.length : Int) ≤ back (a :: t) := by
  intro t
  induction t with
  | nil => intro a _; simp [back]
  | cons b t ih =>
    intro a hs
    have hs1 := List.pairwise_cons.1 hs
    have h1 : a < b := hs1.1 b (List.mem_cons_self _ _)
    have h2 := ih b hs1.2
    rw [back_cons_cons]
    simp only [List.length_cons, Nat.cast_add, Nat.cast_one]
    omega

/-! ## `keepFrom` -/

theorem keepFrom_congr (axes axes1 : List Int) : ∀ (l : List Int) (i : Nat),
    (∀ p : Nat, i ≤ p → ((p : Int) ∈ axes ↔ (p : Int) ∈ axes1)) →
    keepFrom axes i l = keepFrom axes1 i l := by
  intro l
  induction l with
  | nil => intro i _; simp [keepFrom]
  | cons d rest ih =>
    intro i h
    have hi := h i (le_refl i)
    have hrest := ih (i + 1) (fun p hp => h p (by omega))
    unfold keepFrom
    by_cases hm : (i : Int) ∈ axes
    · rw [if_pos hm, if_pos (hi.1 hm), hrest]
    · rw [if_neg hm, if_neg (fun h1 => hm (hi.2 h1)), hrest]

theorem keepFrom_skip (axes : List Int) : ∀ (n : Nat) (l : List Int) (i : Nat),
    (∀ x ∈ axes, x < (i : Int) ∨ ((i : Int) + (n : Int)) ≤ x) →
    keepFrom axes i l = l.take n ++ keepFrom axes (i + n) (l.drop n) := by
  intro n
  induction n with
  | zero => intro l i _; simp
  | succ n ih =>
    intro l i h
    cases l with
    | nil => simp [keepFrom]
    | cons d rest =>
      have hi : ¬ (i : Int) ∈ axes := by
        intro hm
        rcases h _ hm with h1 | h1
        · omega
        · push_cast at h1; omega
      have hrest := ih rest (i + 1) (fun x hx => by
        rcases h x hx with h1 | h1
        · left; push_cast; omega
        · right; push_cast at h1 ⊢; omega)
      rw [keepFrom, if_neg hi, hrest]
      simp only [List.take_succ_cons, List.drop_succ_cons, List.cons_append]
      have : i + 1 + n = i + (n + 1) := by omega
      rw [this]

/-! ## The insertion loop of `ExpandDimsOp` -/

theorem insertAt_eq (v : List Int) (n : Nat) (x : Int) (h : n ≤ v.length) :
    insertAt v (n : Int) x = some (v.take n ++ x :: v.drop n) := by
  unfold insertAt
  have h1 : 0 ≤ (n : Int) ∧ (n : Int) ≤ (v.length : Int) := ⟨by omega, by omega⟩
  rw [if_pos h1, Int.toNat_ofNat]

/-- The loop over an increasing `dims_` whose largest entry passes the rank
check: every insertion is in range, and the final vector has a `1` at every
position of `dims_` and the input entries, in order, everywhere else. -/
theorem insertLoop_spec : ∀ (A : List Int) (s : List Int), StrictlyIncreasing A →
    (∀ a ∈ A, 0 ≤ a) → (A ≠ [] → back A + 1 ≤ (s.length : Int) + (A.length : Int)) →
    ∃ t, ExpandDimsOp.insertLoop A s = .ok t ∧ t.length = s.length + A.length ∧
      (∀ a ∈ A, t[a.toNat]? = some 1) ∧ keepFrom A 0 t = s := by
  intro A
  induction A with
  | nil => intro s _ _ _; exact ⟨s, rfl, by simp, by simp, by
      rw [keepFrom_skip [] s.length s 0 (by simp)]; simp [keepFrom]⟩
  | cons a A1 ih =>
    intro s hs hnn hb
    have hs1 := List.pairwise_cons.1 hs
    have ha0 : 0 ≤ a := hnn a (List.mem_cons_self _ _)
    obtain ⟨n, rfl⟩ := Int.eq_ofNat_of_zero_le ha0
    have hbk := hb (List.cons_ne_nil _ _)
    have hhead := head_add_length_le_back A1 n hs
    have hn : n ≤ s.length := by
      simp only [List.length_cons, Nat.cast_add, Nat.cast_one] at hbk
      omega
    have hb1 : A1 ≠ [] → back A1 + 1 ≤
        (((s.take n ++ 1 :: s.drop n).length : Nat) : Int) + (A1.length : Int) := by
      intro hne
      obtain ⟨b, t1, rfl⟩ := List.exists_cons_of_ne_nil hne
      rw [back_cons_cons] at hbk
      simp only [List.length_append, List.length_take, List.length_cons, List.length_drop,
        Nat.cast_add, Nat.cast_one] at hbk ⊢
      omega
    obtain ⟨t, ht, hlen, hone, hkeep⟩ :=
      ih (s.take n ++ 1 :: s.drop n) hs1.2 (fun x hx => hnn x (List.mem_cons_of_mem _ hx)) hb1
    have hlen1 : t.length = s.length + 1 + A1.length := by
      rw [hlen]
      simp only [List.length_append, List.length_take, List.length_cons, List.length_drop]
      omega
    have hgt : ∀ x ∈ A1, (n : Int) + 1 ≤ x := fun x hx => by
      have := hs1.1 x hx
      omega
    -- the first `n + 1` entries of `t` are those of the vector after the first
    -- insertion
    have hsplit := keepFrom_skip A1 (n + 1) t 0 (fun x hx => by
      right
      have := hgt x hx
      push_cast
      omega)
    rw [hkeep] at hsplit
    have hsplit1 : (s.take n ++ [1]) ++ s.drop n =
        t.take (n + 1) ++ keepFrom A1 (0 + (n + 1)) (t.drop (n + 1)) := by
      rw [← hsplit]; simp
    have hl : (s.take n ++ [1]).length = (t.take (n + 1)).length := by
      simp only [List.length_append, List.length_take, List.length_singleton]
      omega
    obtain ⟨hpre, hsuf⟩ := List.append_inj hsplit1 hl
    have htn : t[n]? = some 1 := by
      have h1 : (t.take (n + 1))[n]? = t[n]? := by
        rw [List.getElem?_take]
        simp
      rw [← h1, ← hpre]
      have h2 : (s.take n).length = n := by simp [hn]
      rw [List.getElem?_append_right (by omega), h2]
      simp
    have htake : t.take n = s.take n := by
      have h1 : (t.take (n + 1)).take n = t.take n := by
        rw [List.take_take]; simp
      rw [← h1, ← hpre]
      have h2 : (s.take n).length = n := by simp [hn]
      rw [List.take_append_eq_append_take, h2]
      simp
    refine ⟨t, ?_, ?_, ?_, ?_⟩
    · rw [ExpandDimsOp.insertLoop, insertAt_eq s n 1 hn]
      exact ht
    · rw [hlen1]; simp only [List.length_cons]; omega
    · intro x hx
      rcases List.mem_cons.1 hx with hx | hx
      · rw [hx, Int.toNat_ofNat]; exact htn
      · exact hone x hx
    · have h1 := keepFrom_skip ((n : Int) :: A1) n t 0 (fun x hx => by
        right
        rcases List.mem_cons.1 hx with hx | hx
        · rw [hx]; push_cast; omega
        · have := hgt x hx
          push_cast; omega)
      rw [h1, htake]
      have hdrop : t.drop n = 1 :: t.drop (n + 1) := by
        have hlt : n < t.length := by omega
        rw [List.drop_eq_getElem_cons hlt]
        have : t[n] = 1 := by
          have := List.getElem?_eq_getElem hlt
          rw [htn] at this
          exact (Option.some.inj this).symm
        rw [this]
      rw [hdrop, keepFrom, if_pos (by simp)]
      have hc := keepFrom_congr ((n : Int) :: A1) A1 (t.drop (n + 1)) (0 + n + 1) (fun p hp => by
        simp only [List.mem_cons]
        constructor
        · rintro (h | h)
          · omega
          · exact h
        · intro h; exact Or.inr h)
      rw [hc]
      have : 0 + n + 1 = 0 + (n + 1) := by omega
      rw [this, ← hsuf]
      exact List.take_append_drop n s

/-! ## `ExpandDimsOp::RunOnDevice` -/

theorem toSizeT_of_nonneg (z : Int) (h0 : 0 ≤ z) (h1 : z < 18446744073709551616) :
    toSizeT z = z.toNat := by
  unfold toSizeT
  rw [Int.emod_eq_of_lt h0 h1]

theorem back_range (A : List Int) (hA : AxisSet A) (hint : ∀ a ∈ A, IsInt a) :
    0 ≤ back A ∧ back A < 2147483648 :=
  ⟨hA.nonneg _ (back_mem A hA.nonempty), (hint _ (back_mem A hA.nonempty)).2⟩

/-- The rank check of `ExpandDimsOp::RunOnDevice`, mixed `size_t`/`int` in the
source, read over the integers. -/
theorem expand_guard_iff (A : List Int) (r : Nat) (hA : AxisSet A) (hint : ∀ a ∈ A, IsInt a) :
    r + A.length ≥ toSizeT (back A + 1) ↔ back A + 1 ≤ (r : Int) + (A.length : Int) := by
  obtain ⟨h0, h1⟩ := back_range A hA hint
  rw [toSizeT_of_nonneg (back A + 1) (by omega) (by omega)]
  omega

/-- A sum of `int`s that an `int` can hold is its 32-bit sum. -/
theorem toInt_of_range (z : Int) (h1 : -2147483648 ≤ z) (h2 : z < 2147483648) :
    toInt z = z := by
  unfold toInt
  rw [Int.emod_eq_of_lt (by omega) (by omega)]
  omega

/-- The comparison of the rank check with the 32-bit sum `dims_.back() + 1` of
the source: it comes out as over the integers whenever the rank plus the number
of axes is below `2^31`. -/
theorem expand_guard_int_sum (A : List Int) (r : Nat) (hA : AxisSet A)
    (hint : ∀ a ∈ A, IsInt a) (hr : (r : Int) + (A.length : Int) < 2147483648) :
    r + A.length ≥ toSizeT (toInt (back A + 1)) ↔ r + A.length ≥ toSizeT (back A + 1) := by
  obtain ⟨h0, h1⟩ := back_range A hA hint
  by_cases hmax : back A < 2147483647
  · rw [toInt_of_range (back A + 1) (by omega) (by omega)]
  · have hb : back A = 2147483647 := by omega
    rw [hb]
    have e1 : toSizeT (toInt (2147483647 + 1)) = 18446744071562067968 := by decide
    have e2 : toSizeT (2147483647 + 1) = 2147483648 := by decide
    rw [e1, e2]
    omega

/-- The number `1 + dims_.back() - dims_.size()` printed by a failing rank
check, for a largest axis below `INT_MAX`: neither the sum nor the `size_t`
subtraction wraps. -/
theorem expand_needed_eq (A : List Int) (r : Nat) (hA : AxisSet A) (hint : ∀ a ∈ A, IsInt a)
    (hmax : back A < 2147483647)
    (hfail : (r : Int) + (A.length : Int) < back A + 1) :
    ((toSizeT ((toSizeT (toInt (1 + back A)) : Int) - (A.length : Int)) : Nat) : Int) =
      back A - (A.length : Int) + 1 := by
  obtain ⟨h0, h1⟩ := back_range A hA hint
  rw [toInt_of_range (1 + back A) (by omega) (by omega)]
  rw [toSizeT_of_nonneg (1 + back A) (by omega) (by omega)]
  rw [toSizeT_of_nonneg _ (by omega) (by omega)]
  omega

theorem expand_run_ok (A s : List Int) (data : List Nat) (out : Tensor) (hA : AxisSet A)
    (hint : ∀ a ∈ A, IsInt a) (h : back A + 1 ≤ (s.length : Int) + (A.length : Int)) :
    ∃ t, ExpandDimsOp.RunOnDevice ⟨A⟩ ⟨s, data⟩ out = ⟨⟨t, data⟩, .ok true⟩ ∧
      t.length = s.length + A.length ∧ (∀ a ∈ A, t[a.toNat]? = some 1) ∧ keep A t = s := by
  obtain ⟨t, ht, h1, h2, h3⟩ := insertLoop_spec A s hA.increasing hA.nonneg (fun _ => h)
  refine ⟨t, ?_, h1, h2, h3⟩
  have hne : A.isEmpty = false := by
    cases A with
    | nil => exact absurd rfl hA.nonempty
    | cons a t => rfl
  have hg := (expand_guard_iff A s.length hA hint).2 h
  simp only [ExpandDimsOp.RunOnDevice, Tensor.CopyFrom, hne, Bool.false_eq_true, if_false]
  rw [if_pos hg, ht]
  rfl

theorem expand_run_fail (A s : List Int) (data : List Nat) (out : Tensor) (hA : AxisSet A)
    (hint : ∀ a ∈ A, IsInt a) (h : (s.length : Int) + (A.length : Int) < back A + 1) :
    ExpandDimsOp.RunOnDevice ⟨A⟩ ⟨s, data⟩ out =
      ⟨⟨s, data⟩, .error (.InsufficientRank
        (toSizeT ((toSizeT (toInt (1 + back A)) : Int) - (A.length : Int))))⟩ := by
  have hne : A.isEmpty = false := by
    cases A with
    | nil => exact absurd rfl hA.nonempty
    | cons a t => rfl
  have hg : ¬ (s.length + A.length ≥ toSizeT (back A + 1)) := by
    rw [expand_guard_iff A s.length hA hint]; omega
  simp only [ExpandDimsOp.RunOnDevice, Tensor.CopyFrom, hne, Bool.false_eq_true, if_false]
  rw [if_neg hg]

theorem expand_run_fail_below_max (A s : List Int) (data : List Nat) (out : Tensor)
    (hA : AxisSet A) (hint : ∀ a ∈ A, IsInt a) (hmax : back A < 2147483647)
    (h : (s.length : Int) + (A.length : Int) < back A + 1) :
    ExpandDimsOp.RunOnDevice ⟨A⟩ ⟨s, data⟩ out =
      ⟨⟨s, data⟩, .error (.InsufficientRank (back A - (A.length : Int) + 1))⟩ := by
  rw [expand_run_fail A s data out hA hint h, expand_needed_eq A s.length hA hint hmax h]

/-! ## The merge loop of `SqueezeOp::ComputeDims` -/

theorem cursor_start (dims : List Int) (h : ∀ a ∈ dims, 0 ≤ a) : Cursor dims 0 0 := by
  refine ⟨Nat.zero_le _, ?_, ?_⟩
  · intro x hx; simp at hx
  · intro x hx
    simp only [List.drop_zero] at hx
    simpa using h x hx

/-- Under the loop invariant the test `j < dims.size() && dims[j] == i` finds
out whether `i` is one of the axes. -/
theorem match_iff (dims : List Int) (i j : Nat) (hs : StrictlyIncreasing dims)
    (hc : Cursor dims i j) :
    (j < dims.length ∧ dims.getD j 0 = (i : Int)) ↔ (i : Int) ∈ dims := by
  obtain ⟨_, hlo, hhi⟩ := hc
  constructor
  · rintro ⟨hj, he⟩
    rw [List.getD_eq_getElem _ _ hj] at he
    rw [← he]
    exact List.getElem_mem hj
  · intro hm
    rw [← List.take_append_drop j dims, List.mem_append] at hm
    rcases hm with hm | hm
    · have := hlo _ hm
      omega
    · have hj : j < dims.length := by
        by_contra hge
        rw [List.drop_eq_nil_of_le (by omega)] at hm
        simp at hm
      refine ⟨hj, ?_⟩
      rw [List.getD_eq_getElem _ _ hj]
      have hsd : (dims.drop j).Pairwise (· < ·) := List.Pairwise.sublist (List.drop_sublist j dims) hs
      rw [List.drop_eq_getElem_cons hj] at hm hsd hhi
      rcases List.mem_cons.1 hm with hm | hm
      · exact hm.symm
      · have h1 := (List.pairwise_cons.1 hsd).1 _ hm
        have h2 := hhi dims[j] (List.mem_cons_self _ _)
        omega

theorem cursor_match (dims : List Int) (i j : Nat) (hs : StrictlyIncreasing dims)
    (hc : Cursor dims i j) (hj : j < dims.length) (he : dims.getD j 0 = (i : Int)) :
    Cursor dims (i + 1) (j + 1) := by
  obtain ⟨_, hlo, hhi⟩ := hc
  rw [List.getD_eq_getElem _ _ hj] at he
  refine ⟨hj, ?_, ?_⟩
  · intro x hx
    rw [List.take_succ, List.mem_append] at hx
    rcases hx with hx | hx
    · have := hlo x hx
      push_cast; omega
    · rw [List.getElem?_eq_getElem hj] at hx
      simp only [Option.toList_some, List.mem_singleton] at hx
      rw [hx, he]; push_cast; omega
  · intro x hx
    have hsd : (dims.drop j).Pairwise (· < ·) := List.Pairwise.sublist (List.drop_sublist j dims) hs
    rw [List.drop_eq_getElem_cons hj] at hsd
    have h1 := (List.pairwise_cons.1 hsd).1 _ hx
    rw [he] at h1
    push_cast; omega

theorem cursor_skip (dims : List Int) (i j : Nat) (hc : Cursor dims i j)
    (hn : ¬ (i : Int) ∈ dims) : Cursor dims (i + 1) j := by
  obtain ⟨hj, hlo, hhi⟩ := hc
  refine ⟨hj, ?_, ?_⟩
  · intro x hx
    have := hlo x hx
    push_cast; omega
  · intro x hx
    have h1 := hhi x hx
    have h2 : x ≠ (i : Int) := by
      intro h; rw [h] at hx
      exact hn (List.mem_of_mem_drop hx)
    push_cast; omega

/-- The loop on entries whose targeted positions all hold `1`: it keeps the
entries at the other positions, each stored into an `int`. -/
theorem loop_ok (dims : List Int) (hs : StrictlyIncreasing dims) :
    ∀ (rest : List Int) (i j : Nat) (acc : List Int), Cursor dims i j →
    (∀ (p : Nat) (d : Int), rest[p]? = some d → ((i + p : Nat) : Int) ∈ dims → d = 1) →
    ∃ j1, SqueezeOp.ComputeDims.loop dims rest i j acc =
        .ok (acc ++ (keepFrom dims i rest).map toInt, j1) ∧
      Cursor dims (i + rest.length) j1 := by
  intro rest
  induction rest with
  | nil => intro i j acc hc _; exact ⟨j, by simp [SqueezeOp.ComputeDims.loop, keepFrom], hc⟩
  | cons d rest ih =>
    intro i j acc hc hone
    have hm := match_iff dims i j hs hc
    have hone1 : ∀ (p : Nat) (e : Int), rest[p]? = some e →
        ((i + 1 + p : Nat) : Int) ∈ dims → e = 1 := by
      intro p e hp hmem
      have h1 : (d :: rest)[p + 1]? = some e := by simpa using hp
      have h2 : i + (p + 1) = i + 1 + p := by omega
      exact hone (p + 1) e h1 (by rw [h2]; exact hmem)
    have hlen : i + (d :: rest).length = i + 1 + rest.length := by
      simp only [List.length_cons]; omega
    rw [hlen]
    by_cases hi : (i : Int) ∈ dims
    · have hcond := hm.2 hi
      have hd : d = 1 := hone 0 d (by simp) (by simpa using hi)
      obtain ⟨j1, h1, h2⟩ := ih (i + 1) (j + 1) acc (cursor_match dims i j hs hc hcond.1 hcond.2) hone1
      refine ⟨j1, ?_, h2⟩
      rw [SqueezeOp.ComputeDims.loop, if_pos hcond, if_pos hd, h1, keepFrom, if_pos hi]
    · have hcond : ¬ (j < dims.length ∧ dims.getD j 0 = (i : Int)) := fun h => hi (hm.1 h)
      obtain ⟨j1, h1, h2⟩ := ih (i + 1) j (acc ++ [toInt d]) (cursor_skip dims i j hc hi) hone1
      refine ⟨j1, ?_, h2⟩
      rw [SqueezeOp.ComputeDims.loop, if_neg hcond, h1, keepFrom, if_neg hi]
      simp

/-- The loop on entries of which a targeted one is not `1`: it throws at the
first such position. -/
theorem loop_err (dims : List Int) (hs : StrictlyIncreasing dims) :
    ∀ (rest : List Int) (i j : Nat) (acc : List Int) (p : Nat) (d : Int), Cursor dims i j →
    rest[p]? = some d → ((i + p : Nat) : Int) ∈ dims → d ≠ 1 →
    (∀ (q : Nat) (e : Int), q < p → rest[q]? = some e → ((i + q : Nat) : Int) ∈ dims → e = 1) →
    SqueezeOp.ComputeDims.loop dims rest i j acc =
      .error (.NonUnitDimension ((i + p : Nat) : Int) d) := by
  intro rest
  induction rest with
  | nil => intro i j acc p d _ hp; simp at hp
  | cons d0 rest ih =>
    intro i j acc p d hc hp hmem hd hfirst
    have hm := match_iff dims i j hs hc
    cases p with
    | zero =>
      have h0 : d0 = d := by simpa using hp
      subst h0
      have hi : (i : Int) ∈ dims := by simpa using hmem
      rw [SqueezeOp.ComputeDims.loop, if_pos (hm.2 hi), if_neg hd]
      simp
    | succ p =>
      have hp1 : rest[p]? = some d := by simpa using hp
      have h2 : i + (p + 1) = i + 1 + p := by omega
      rw [h2] at hmem ⊢
      have hfirst1 : ∀ (q : Nat) (e : Int), q < p → rest[q]? = some e →
          ((i + 1 + q : Nat) : Int) ∈ dims → e = 1 := by
        intro q e hq hqe hqm
        have h3 : i + (q + 1) = i + 1 + q := by omega
        exact hfirst (q + 1) e (by omega) (by simpa using hqe) (by rw [h3]; exact hqm)
      by_cases hi : (i : Int) ∈ dims
      · have hcond := hm.2 hi
        have hd0 : d0 = 1 := hfirst 0 d0 (by omega) (by simp) (by simpa using hi)
        rw [SqueezeOp.ComputeDims.loop, if_pos hcond, if_pos hd0]
        exact ih (i + 1) (j + 1) acc p d (cursor_match dims i j hs hc hcond.1 hcond.2)
          hp1 hmem hd hfirst1
      · have hcond : ¬ (j < dims.length ∧ dims.getD j 0 = (i : Int)) := fun h => hi (hm.1 h)
        rw [SqueezeOp.ComputeDims.loop, if_neg hcond]
        exact ih (i + 1) j (acc ++ [toInt d0]) p d (cursor_skip dims i j hc hi)
          hp1 hmem hd hfirst1

theorem loop_not_rank (dims : List Int) : ∀ (rest : List Int) (i j : Nat) (acc : List Int) (n : Int),
    SqueezeOp.ComputeDims.loop dims rest i j acc ≠ .error (.InsufficientRank n) := by
  intro rest
  induction rest with
  | nil => intro i j acc n h; simp [SqueezeOp.ComputeDims.loop] at h
  | cons d rest ih =>
    intro i j acc n
    rw [SqueezeOp.ComputeDims.loop]
    split
    · split
      · exact ih _ _ _ n
      · intro h; cases h
    · exact ih _ _ _ n

/-! ## `SqueezeOp::ComputeDims` and `SqueezeOp::RunOnDevice` -/

theorem computeDims_ok (A s : List Int) (hs : StrictlyIncreasing A) (hnn : ∀ a ∈ A, 0 ≤ a)
    (hone : ∀ (p : Nat) (d : Int), s[p]? = some d → (p : Int) ∈ A → d = 1) :
    ∃ j1, SqueezeOp.ComputeDims.loop A s 0 0 [] = .ok ((keep A s).map toInt, j1) ∧
      Cursor A s.length j1 := by
  obtain ⟨j1, h1, h2⟩ := loop_ok A hs s 0 0 [] (cursor_start A hnn)
    (fun p d hp hm => hone p d hp (by simpa using hm))
  refine ⟨j1, ?_, by simpa using h2⟩
  rw [h1]; simp [keep]

theorem computeDims_err (A s : List Int) (hs : StrictlyIncreasing A) (hnn : ∀ a ∈ A, 0 ≤ a)
    (p : Nat) (d : Int) (hp : s[p]? = some d) (hm : (p : Int) ∈ A) (hd : d ≠ 1)
    (hfirst : ∀ (q : Nat) (e : Int), q < p → s[q]? = some e → (q : Int) ∈ A → e = 1) :
    SqueezeOp.ComputeDims s A = .error (.NonUnitDimension (p : Int) d) := by
  have h := loop_err A hs s 0 0 [] p d (cursor_start A hnn) hp (by simpa using hm) hd
    (fun q e hq hqe hqm => hfirst q e hq hqe (by simpa using hqm))
  unfold SqueezeOp.ComputeDims
  rw [h]
  simp [Except.map]

theorem computeDims_not_rank (A s : List Int) (n : Int) :
    SqueezeOp.ComputeDims s A ≠ .error (.InsufficientRank n) := by
  unfold SqueezeOp.ComputeDims
  intro h
  cases hl : SqueezeOp.ComputeDims.loop A s 0 0 [] with
  | error e =>
    rw [hl] at h
    simp only [Except.map, Except.error.injEq] at h
    exact loop_not_rank A s 0 0 [] n (by rw [hl, h])
  | ok v => rw [hl] at h; simp [Except.map] at h

theorem squeeze_run_rank_fail (A s : List Int) (data : List Nat) (out : Tensor)
    (h : (s.length : Int) ≤ back A) :
    SqueezeOp.RunOnDevice ⟨A⟩ ⟨s, data⟩ out =
      ⟨⟨s, data⟩, .error (.InsufficientRank (toInt (back A + 1)))⟩ := by
  have hg : ¬ ((s.length : Int) > back A) := by omega
  simp only [SqueezeOp.RunOnDevice, Tensor.CopyFrom, Tensor.ndim]
  rw [if_neg hg]

theorem squeeze_run_ok (A s : List Int) (data : List Nat) (out : Tensor)
    (hs : StrictlyIncreasing A) (hnn : ∀ a ∈ A, 0 ≤ a) (h : back A < (s.length : Int))
    (hone : ∀ (p : Nat) (d : Int), s[p]? = some d → (p : Int) ∈ A → d = 1) :
    SqueezeOp.RunOnDevice ⟨A⟩ ⟨s, data⟩ out = ⟨⟨(keep A s).map toInt, data⟩, .ok true⟩ := by
  obtain ⟨j1, h1, _⟩ := computeDims_ok A s hs hnn hone
  have hc : SqueezeOp.ComputeDims s A = .ok ((keep A s).map toInt) := by
    unfold SqueezeOp.ComputeDims
    rw [h1]; rfl
  have hg : (s.length : Int) > back A := by omega
  simp only [SqueezeOp.RunOnDevice, Tensor.CopyFrom, Tensor.ndim]
  rw [if_pos hg, hc]
  rfl

theorem squeeze_run_err (A s : List Int) (data : List Nat) (out : Tensor)
    (hs : StrictlyIncreasing A) (hnn : ∀ a ∈ A, 0 ≤ a) (h : back A < (s.length : Int))
    (p : Nat) (d : Int) (hp : s[p]? = some d) (hm : (p : Int) ∈ A) (hd : d ≠ 1)
    (hfirst : ∀ (q : Nat) (e : Int), q < p → s[q]? = some e → (q : Int) ∈ A → e = 1) :
    SqueezeOp.RunOnDevice ⟨A⟩ ⟨s, data⟩ out =
      ⟨⟨s, data⟩, .error (.NonUnitDimension (p : Int) d)⟩ := by
  have hc := computeDims_err A s hs hnn p d hp hm hd hfirst
  have hg : (s.length : Int) > back A := by omega
  simp only [SqueezeOp.RunOnDevice, Tensor.CopyFrom, Tensor.ndim]
  rw [if_pos hg, hc]

/-- Storing into an `int` keeps every value an `int` can hold. -/
theorem toInt_of_isInt (z : Int) (h : IsInt z) : toInt z = z := by
  obtain ⟨h1, h2⟩ := h
  unfold toInt
  rw [Int.emod_eq_of_lt (by omega) (by omega)]
  omega

theorem map_toInt_of_isInt (l : List Int) (h : ∀ d ∈ l, IsInt d) : l.map toInt = l := by
  induction l with
  | nil => rfl
  | cons d t ih =>
    rw [List.map_cons, toInt_of_isInt d (h d (List.mem_cons_self _ _)),
      ih (fun x hx => h x (List.mem_cons_of_mem _ hx))]

/-- An axis of a stored `dims_` below the rank is a position of the shape. -/
theorem axis_position (A s : List Int) (hs : StrictlyIncreasing A) (hnn : ∀ a ∈ A, 0 ≤ a)
    (h : back A < (s.length : Int)) (a : Int) (ha : a ∈ A) :
    ∃ (p : Nat) (d : Int), a = (p : Int) ∧ a.toNat = p ∧ s[p]? = some d := by
  obtain ⟨p, rfl⟩ := Int.eq_ofNat_of_zero_le (hnn a ha)
  have h1 := le_back A hs _ ha
  have hp : p < s.length := by omega
  exact ⟨p, s[p], rfl, Int.toNat_ofNat p, List.getElem?_eq_getElem hp⟩

/-! ## Stored axis sets -/

theorem strictlyIncreasing_nodup (A : List Int) (h : StrictlyIncreasing A) : A.Nodup :=
  List.Pairwise.imp (fun hab => ne_of_lt hab) h

theorem ctor_axisSet (raw A : List Int)
    (h : ExpandDimsOp.ctor raw = .ok ⟨A⟩ ∨ SqueezeOp.ctor raw = .ok ⟨A⟩) :
    (initDims raw).dims_ = .ok A := by
  rcases h with h | h
  · exact (expand_ctor_ok raw ⟨A⟩).1 h
  · exact (squeeze_ctor_ok raw ⟨A⟩).1 h

theorem initDims_isInt (raw A : List Int) (h : (initDims raw).dims_ = .ok A)
    (hraw : ∀ a ∈ raw, IsInt a) : ∀ a ∈ A, IsInt a := by
  obtain ⟨_, _, h3⟩ := initDims_ok raw A h
  subst h3
  exact fun a ha => hraw a ((mem_unique_sort a raw).1 ha)

/-- The largest entry of an axis set is its last one. -/
theorem back_largest (A : List Int) (hA : AxisSet A) : back A ∈ A ∧ ∀ a ∈ A, a ≤ back A :=
  ⟨back_mem A hA.nonempty, le_back A hA.increasing⟩

/-! ## Element counts -/

theorem prod_keepFrom (axes : List Int) : ∀ (l : List Int) (i : Nat),
    (∀ (p : Nat) (d : Int), l[p]? = some d → ((i + p : Nat) : Int) ∈ axes → d = 1) →
    (keepFrom axes i l).prod = l.prod := by
  intro l
  induction l with
  | nil => intro i _; simp [keepFrom]
  | cons d rest ih =>
    intro i h
    have hrest := ih (i + 1) (fun p e hp hm => by
      have h2 : i + (p + 1) = i + 1 + p := by omega
      exact h (p + 1) e (by simpa using hp) (by rw [h2]; exact hm))
    rw [keepFrom]
    by_cases hi : (i : Int) ∈ axes
    · have hd : d = 1 := h 0 d (by simp) (by simpa using hi)
      rw [if_pos hi, hrest, hd]; simp
    · rw [if_neg hi, List.prod_cons, List.prod_cons, hrest]

/-- Dropping positions that all hold `1` keeps the element count. -/
theorem numel_keep (A s : List Int)
    (hone : ∀ (p : Nat) (d : Int), s[p]? = some d → (p : Int) ∈ A → d = 1) :
    numel (keep A s) = numel s :=
  prod_keepFrom A s 0 (fun p d hp hm => hone p d hp (by simpa using hm))

/-- Expanding keeps the element count. -/
theorem numel_expand (A s : List Int) (data : List Nat) (out : Tensor) (hA : AxisSet A)
    (hint : ∀ a ∈ A, IsInt a) (h : back A + 1 ≤ (s.length : Int) + (A.length : Int)) :
    numel (ExpandDimsOp.RunOnDevice ⟨A⟩ ⟨s, data⟩ out).output.dims = numel s := by
  obtain ⟨t, ht, _, hone, hkeep⟩ := expand_run_ok A s data out hA hint h
  rw [ht]
  show numel t = numel s
  rw [← hkeep]
  refine (numel_keep A t ?_).symm
  intro p d hp hm
  have := hone _ hm
  rw [Int.toNat_ofNat, hp] at this
  exact Option.some.inj this

/-- Squeezing what expanding produced, with the same axes: the run returns
`true` and installs the original shape, each entry stored into an `int`. -/
theorem squeeze_expand (A s : List Int) (data : List Nat) (out out1 : Tensor) (hA : AxisSet A)
    (hint : ∀ a ∈ A, IsInt a) (h : back A + 1 ≤ (s.length : Int) + (A.length : Int)) :
    SqueezeOp.RunOnDevice ⟨A⟩ (ExpandDimsOp.RunOnDevice ⟨A⟩ ⟨s, data⟩ out).output out1 =
      ⟨⟨s.map toInt, data⟩, .ok true⟩ := by
  obtain ⟨t, ht, hlen, hone, hkeep⟩ := expand_run_ok A s data out hA hint h
  rw [ht]
  have h1 : back A < (t.length : Int) := by
    have := hA.nonempty
    have hk : 0 < A.length := List.length_pos.2 this
    rw [hlen]; push_cast; omega
  have h2 := squeeze_run_ok A t data out1 hA.increasing hA.nonneg h1 (by
    intro p d hp hm
    have := hone _ hm
    rw [Int.toNat_ofNat, hp] at this
    exact Option.some.inj this)
  rw [hkeep] at h2
  exact h2

/-! ## The constructors, case by case -/

theorem expand_ctor_eq (raw : List Int) :
    ExpandDimsOp.ctor raw =
      if raw = [] then .error .Empty
      else if ∀ a ∈ raw, 0 ≤ a then .ok ⟨unique (sort raw)⟩
      else .error .NegativeAxis := by
  unfold ExpandDimsOp.ctor
  rw [initDims_dims]
  split
  · rfl
  · split <;> rfl

theorem squeeze_ctor_eq (raw : List Int) :
    SqueezeOp.ctor raw =
      if raw = [] then .error .Empty
      else if ∀ a ∈ raw, 0 ≤ a then .ok ⟨unique (sort raw)⟩
      else .error .NegativeAxis := by
  unfold SqueezeOp.ctor
  rw [initDims_dims]
  split
  · rfl
  · split <;> rfl

theorem ctor_cases {α : Type} (raw : List Int) (mk : List Int → α) (c : Except ConfigError α)
    (hc : c = if raw = [] then .error .Empty
      else if ∀ a ∈ raw, 0 ≤ a then .ok (mk (unique (sort raw)))
      else .error .NegativeAxis) :
    (c = .error .Empty ↔ raw = []) ∧
    (c = .error .NegativeAxis ↔ raw ≠ [] ∧ ∃ a ∈ raw, a < 0) ∧
    ((∃ op, c = .ok op) ↔ raw ≠ [] ∧ ∀ a ∈ raw, 0 ≤ a) ∧
    ((∃ e, c = .error e) ↔ raw = [] ∨ ∃ a ∈ raw, a < 0) := by
  subst hc
  by_cases h1 : raw = []
  · subst h1; simp
  · by_cases h2 : ∀ a ∈ raw, 0 ≤ a
    · have h3 : ¬ ∃ a ∈ raw, a < 0 := by
        rintro ⟨a, ha, hlt⟩
        have := h2 a ha
        omega
      rw [if_neg h1, if_pos h2]
      refine ⟨?_, ?_, ?_, ?_⟩
      · simp [h1]
      · constructor
        · intro h; cases h
        · intro h; exact absurd h.2 h3
      · constructor
        · intro _; exact ⟨h1, h2⟩
        · intro _; exact ⟨_, rfl⟩
      · constructor
        · rintro ⟨e, he⟩; cases he
        · rintro (h | h)
          · exact absurd h h1
          · exact absurd h h3
    · have h3 : ∃ a ∈ raw, a < 0 := by
        by_contra hn
        apply h2
        intro a ha
        by_contra hlt
        exact hn ⟨a, ha, by omega⟩
      rw [if_neg h1, if_neg h2]
      refine ⟨?_, ?_, ?_, ?_⟩
      · simp [h1]
      · constructor
        · intro _; exact ⟨h1, h3⟩
        · intro _; rfl
      · constructor
        · rintro ⟨op, hop⟩; cases hop
        · intro h; exact absurd h.2 h2
      · constructor
        · intro _; exact Or.inr h3
        · intro _; exact ⟨_, rfl⟩

/-! # The properties of the specification -/

/-- C1: for a strictly increasing, non-negative, non-empty axis set `A` of `k`
entries (C `int`s) and an input shape `s` with `max(A) + 1 ≤ len(s) + k`,
`ExpandDimsOp::RunOnDevice` returns `true` and installs a shape `t` of length
`len(s) + k` that holds `1` at every position of `A` and whose entries at the
positions not in `A`, read in order, are exactly `s`. -/
theorem C1_expand_installs (A s : List Int) (data : List Nat) (out : Tensor)
    (hA : AxisSet A) (hint : ∀ a ∈ A, IsInt a)
    (hrank : ∀ a ∈ A, a + 1 ≤ (s.length : Int) + (A.length : Int)) :
    (ExpandDimsOp.RunOnDevice ⟨A⟩ ⟨s, data⟩ out).result = .ok true ∧
    (ExpandDimsOp.RunOnDevice ⟨A⟩ ⟨s, data⟩ out).output.dims.length = s.length + A.length ∧
    (∀ a ∈ A, (ExpandDimsOp.RunOnDevice ⟨A⟩ ⟨s, data⟩ out).output.dims[a.toNat]? = some 1) ∧
    keep A (ExpandDimsOp.RunOnDevice ⟨A⟩ ⟨s, data⟩ out).output.dims = s := by
  obtain ⟨t, ht, h1, h2, h3⟩ :=
    expand_run_ok A s data out hA hint (hrank _ (back_mem A hA.nonempty))
  rw [ht]
  exact ⟨rfl, h1, h2, h3⟩

/-- C1 at `s = (2,3)`, `A = [0]`: the installed shape is `(1,2,3)`. -/
theorem C1_expand_installs_witness :
    AxisSet [0] ∧ (∀ a ∈ [(0 : Int)], IsInt a) ∧
    (∀ a ∈ [(0 : Int)], a + 1 ≤ (([2, 3] : List Int).length : Int) + (([0] : List Int).length : Int)) ∧
    (ExpandDimsOp.RunOnDevice ⟨[0]⟩ ⟨[2, 3], []⟩ ⟨[], []⟩).result = .ok true ∧
    (ExpandDimsOp.RunOnDevice ⟨[0]⟩ ⟨[2, 3], []⟩ ⟨[], []⟩).output.dims = [1, 2, 3] ∧
    keep [0] (ExpandDimsOp.RunOnDevice ⟨[0]⟩ ⟨[2, 3], []⟩ ⟨[], []⟩).output.dims = [2, 3] :=
  have hA : AxisSet [0] := ⟨by decide, by decide, by decide⟩
  have h := C1_expand_installs [0] [2, 3] [] ⟨[], []⟩ hA (by decide) (by decide)
  ⟨hA, by decide, by decide, h.1, by decide, h.2.2.2⟩

/-- C2, at the shape `(1, 2^31)` with `A = [0]` (strictly increasing,
non-negative, non-empty, `len(s) > max(A)`, `s[0] = 1`): `SqueezeOp::RunOnDevice`
returns `true`, but the shape it installs is `(-2^31)`, which is not the
subsequence `(2^31)` of the input at the positions not in `A`. -/
theorem C2_squeeze_narrows_retained_size :
    AxisSet [0] ∧ back [0] < (([1, 2147483648] : List Int).length : Int) ∧
    ([1, 2147483648] : List Int)[0]? = some 1 ∧
    keep [0] [1, 2147483648] = [2147483648] ∧
    SqueezeOp.ComputeDims [1, 2147483648] [0] = .ok [-2147483648] ∧
    (SqueezeOp.RunOnDevice ⟨[0]⟩ ⟨[1, 2147483648], []⟩ ⟨[], []⟩).result = .ok true ∧
    (SqueezeOp.RunOnDevice ⟨[0]⟩ ⟨[1, 2147483648], []⟩ ⟨[], []⟩).output.dims = [-2147483648] ∧
    (SqueezeOp.RunOnDevice ⟨[0]⟩ ⟨[1, 2147483648], []⟩ ⟨[], []⟩).output.dims ≠
      keep [0] [1, 2147483648] :=
  ⟨⟨by decide, by decide, by decide⟩, by decide, by decide, by decide, by decide, by decide,
    by decide, by decide⟩

/-- C3, at the shape `(2^31)` with `dims = [0]`: expanding succeeds with
`(1, 2^31)`; squeezing that with the same axis set returns `true` (no rank or
unit-size failure) but installs `(-2^31)`, not the original shape. -/
theorem C3_round_trip_narrows :
    ExpandDimsOp.ctor [0] = .ok ⟨[0]⟩ ∧ SqueezeOp.ctor [0] = .ok ⟨[0]⟩ ∧
    (ExpandDimsOp.RunOnDevice ⟨[0]⟩ ⟨[2147483648], []⟩ ⟨[], []⟩).result = .ok true ∧
    (ExpandDimsOp.RunOnDevice ⟨[0]⟩ ⟨[2147483648], []⟩ ⟨[], []⟩).output.dims = [1, 2147483648] ∧
    (SqueezeOp.RunOnDevice ⟨[0]⟩
      (ExpandDimsOp.RunOnDevice ⟨[0]⟩ ⟨[2147483648], []⟩ ⟨[], []⟩).output ⟨[], []⟩).result =
        .ok true ∧
    (SqueezeOp.RunOnDevice ⟨[0]⟩
      (ExpandDimsOp.RunOnDevice ⟨[0]⟩ ⟨[2147483648], []⟩ ⟨[], []⟩).output ⟨[], []⟩).output.dims =
        [-2147483648] ∧
    (SqueezeOp.RunOnDevice ⟨[0]⟩
      (ExpandDimsOp.RunOnDevice ⟨[0]⟩ ⟨[2147483648], []⟩ ⟨[], []⟩).output ⟨[], []⟩).output.dims ≠
        [2147483648] :=
  ⟨by decide, by decide, by decide, by decide, by decide, by decide, by decide⟩

/-- C4: when construction of either operator succeeds, the stored `dims_` is
strictly increasing, free of duplicates, and holds exactly the values of the
raw list. -/
theorem C4_stored_axes (raw A : List Int)
    (h : ExpandDimsOp.ctor raw = .ok ⟨A⟩ ∨ SqueezeOp.ctor raw = .ok ⟨A⟩) :
    StrictlyIncreasing A ∧ A.Nodup ∧ (∀ x, x ∈ raw → x ∈ A) ∧ (∀ x, x ∈ A → x ∈ raw) := by
  have h0 := ctor_axisSet raw A h
  obtain ⟨_, _, h3⟩ := initDims_ok raw A h0
  have hinc := (initDims_axisSet raw A h0).increasing
  subst h3
  exact ⟨hinc, strictlyIncreasing_nodup _ hinc, fun x hx => (mem_unique_sort x raw).2 hx,
    fun x hx => (mem_unique_sort x raw).1 hx⟩

/-- C4 at the raw list `[2,2,1]`, stored as `[1,2]`. -/
theorem C4_stored_axes_witness :
    (ExpandDimsOp.ctor [2, 2, 1] = .ok ⟨[1, 2]⟩ ∨ SqueezeOp.ctor [2, 2, 1] = .ok ⟨[1, 2]⟩) ∧
    StrictlyIncreasing [1, 2] ∧ ([1, 2] : List Int).Nodup ∧
    (∀ x, x ∈ ([2, 2, 1] : List Int) → x ∈ ([1, 2] : List Int)) ∧
    (∀ x, x ∈ ([1, 2] : List Int) → x ∈ ([2, 2, 1] : List Int)) :=
  ⟨Or.inl (by decide), C4_stored_axes [2, 2, 1] [1, 2] (Or.inl (by decide))⟩

/-- C5: construction of either operator throws exactly when the raw list is
empty ("Parameter `dims` must be provided.") or, being non-empty, holds a
negative value at any position ("Dimension ids must be non-negative."); every
other raw list is accepted. -/
theorem C5_construction_failures (raw : List Int) :
    ((ExpandDimsOp.ctor raw = .error .Empty ↔ raw = []) ∧
     (ExpandDimsOp.ctor raw = .error .NegativeAxis ↔ raw ≠ [] ∧ ∃ a ∈ raw, a < 0) ∧
     ((∃ op, ExpandDimsOp.ctor raw = .ok op) ↔ raw ≠ [] ∧ ∀ a ∈ raw, 0 ≤ a) ∧
     ((∃ e, ExpandDimsOp.ctor raw = .error e) ↔ raw = [] ∨ ∃ a ∈ raw, a < 0)) ∧
    ((SqueezeOp.ctor raw = .error .Empty ↔ raw = []) ∧
     (SqueezeOp.ctor raw = .error .NegativeAxis ↔ raw ≠ [] ∧ ∃ a ∈ raw, a < 0) ∧
     ((∃ op, SqueezeOp.ctor raw = .ok op) ↔ raw ≠ [] ∧ ∀ a ∈ raw, 0 ≤ a) ∧
     ((∃ e, SqueezeOp.ctor raw = .error e) ↔ raw = [] ∨ ∃ a ∈ raw, a < 0)) ∧
    ConfigError.Empty.message = "Parameter `dims` must be provided." ∧
    ConfigError.NegativeAxis.message = "Dimension ids must be non-negative." :=
  ⟨ctor_cases raw ExpandDimsOp.mk _ (expand_ctor_eq raw),
   ctor_cases raw SqueezeOp.mk _ (squeeze_ctor_eq raw), rfl, rfl⟩

/-- C6, at the shape `(1, 2^31)` with `dims = [0]`: `SqueezeOp::RunOnDevice`
returns `true` and the shape it hands to `Reshape` describes `-2^31` elements,
while the input shape describes `2^31`. -/
theorem C6_squeeze_changes_element_count :
    SqueezeOp.ctor [0] = .ok ⟨[0]⟩ ∧
    (SqueezeOp.ComputeDims [1, 2147483648] [0]).map numel = .ok (-2147483648) ∧
    (SqueezeOp.RunOnDevice ⟨[0]⟩ ⟨[1, 2147483648], []⟩ ⟨[], []⟩).result = .ok true ∧
    numel (SqueezeOp.RunOnDevice ⟨[0]⟩ ⟨[1, 2147483648], []⟩ ⟨[], []⟩).output.dims =
      -2147483648 ∧
    numel [1, 2147483648] = 2147483648 ∧
    numel (SqueezeOp.RunOnDevice ⟨[0]⟩ ⟨[1, 2147483648], []⟩ ⟨[], []⟩).output.dims ≠
      numel [1, 2147483648] :=
  ⟨by decide, by decide, by decide, by decide, by decide, by decide⟩

/-- The rank failure of `ExpandDimsOp::RunOnDevice` for an axis set stored by
construction from C `int`s (`k` entries) whose largest entry
`maxAxis = dims_.back()` is below `INT_MAX`: it is thrown exactly when
`r + k < maxAxis + 1`; the number it then reports is `maxAxis - k + 1`, exceeds
`r`, and is the least rank at which a run with this axis set returns `true`. -/
theorem expand_insufficient_rank_below_max (raw : List Int) (op : ExpandDimsOp)
    (input out : Tensor) (hraw : ∀ a ∈ raw, IsInt a) (hctor : ExpandDimsOp.ctor raw = .ok op)
    (hmax : back op.dims_ < 2147483647) :
    (back op.dims_ ∈ op.dims_ ∧ ∀ a ∈ op.dims_, a ≤ back op.dims_) ∧
    ((∃ n, (op.RunOnDevice input out).result = .error (.InsufficientRank n)) ↔
      (input.dims.length : Int) + (op.dims_.length : Int) < back op.dims_ + 1) ∧
    (∀ n, (op.RunOnDevice input out).result = .error (.InsufficientRank n) →
      n = back op.dims_ - (op.dims_.length : Int) + 1 ∧
      (input.dims.length : Int) < n ∧
      ∀ input1 out1 : Tensor,
        (op.RunOnDevice input1 out1).result = .ok true ↔ n ≤ (input1.dims.length : Int)) := by
  obtain ⟨A⟩ := op
  obtain ⟨s, data⟩ := input
  have h0 := (expand_ctor_ok raw ⟨A⟩).1 hctor
  have hA : AxisSet A := initDims_axisSet raw A h0
  have hint : ∀ a ∈ A, IsInt a := initDims_isInt raw A h0 hraw
  have hleast : ∀ input1 out1 : Tensor,
      (ExpandDimsOp.RunOnDevice ⟨A⟩ input1 out1).result = .ok true ↔
        back A - (A.length : Int) + 1 ≤ (input1.dims.length : Int) := by
    intro input1 out1
    obtain ⟨s1, data1⟩ := input1
    by_cases h : back A + 1 ≤ (s1.length : Int) + (A.length : Int)
    · obtain ⟨t, ht, _⟩ := expand_run_ok A s1 data1 out1 hA hint h
      rw [ht]
      constructor
      · intro _; show back A - (A.length : Int) + 1 ≤ (s1.length : Int); omega
      · intro _; rfl
    · rw [expand_run_fail A s1 data1 out1 hA hint (by omega)]
      constructor
      · intro h1; cases h1
      · intro h1
        have : back A - (A.length : Int) + 1 ≤ (s1.length : Int) := h1
        omega
  refine ⟨back_largest A hA, ?_, ?_⟩
  · by_cases h : back A + 1 ≤ (s.length : Int) + (A.length : Int)
    · obtain ⟨t, ht, _⟩ := expand_run_ok A s data out hA hint h
      rw [ht]
      constructor
      · rintro ⟨n, hn⟩; cases hn
      · intro h1
        have : (s.length : Int) + (A.length : Int) < back A + 1 := h1
        omega
    · rw [expand_run_fail A s data out hA hint (by omega)]
      constructor
      · intro _; show (s.length : Int) + (A.length : Int) < back A + 1; omega
      · intro _; exact ⟨_, rfl⟩
  · intro n hn
    by_cases h : back A + 1 ≤ (s.length : Int) + (A.length : Int)
    · obtain ⟨t, ht, _⟩ := expand_run_ok A s data out hA hint h
      rw [ht] at hn
      cases hn
    · rw [expand_run_fail_below_max A s data out hA hint hmax (by omega)] at hn
      have hn1 : back A - (A.length : Int) + 1 = n := by
        have := Except.error.inj hn
        exact RuntimeError.InsufficientRank.inj this
      subst hn1
      refine ⟨rfl, ?_, hleast⟩
      show (s.length : Int) < back A - (A.length : Int) + 1
      omega

/-- C7, at `dims = [2147483647]` (`INT_MAX`) and the shape `(2,3)`: construction
succeeds and the run throws the rank failure (`2 + 1 < maxAxis + 1`), but the
number it reports is 18446744071562067967 and not
`maxAxis - k + 1 = 2147483647`: the `int` sum `1 + dims_.back()` has become
`-2^31` before the conversion to `size_t`, which then wraps around. The check
itself fails whether `dims_.back() + 1` is read as a 32-bit sum or not. -/
theorem C7_expand_rank_message_wraps :
    (∀ a ∈ [(2147483647 : Int)], IsInt a) ∧
    ExpandDimsOp.ctor [2147483647] = .ok ⟨[2147483647]⟩ ∧
    ¬ (([2, 3] : List Int).length + ([2147483647] : List Int).length ≥
        toSizeT (toInt (back [2147483647] + 1))) ∧
    (ExpandDimsOp.RunOnDevice ⟨[2147483647]⟩ ⟨[2, 3], []⟩ ⟨[], []⟩).result =
      .error (.InsufficientRank 18446744071562067967) ∧
    toInt (1 + back [2147483647]) = -2147483648 ∧
    back [2147483647] - ((([2147483647] : List Int).length : Nat) : Int) + 1 = 2147483647 ∧
    (ExpandDimsOp.RunOnDevice ⟨[2147483647]⟩ ⟨[2, 3], []⟩ ⟨[], []⟩).result ≠
      .error (.InsufficientRank
        (back [2147483647] - ((([2147483647] : List Int).length : Nat) : Int) + 1)) :=
  ⟨by decide, by decide, by decide, by decide, by decide, by decide, by decide⟩

/-- The rank failure of `SqueezeOp::RunOnDevice` for an axis set stored by
construction whose largest entry `maxAxis = dims_.back()` is below `INT_MAX`: it
is thrown exactly when `r ≤ maxAxis`, reporting `maxAxis + 1`; the check comes
before the sizes are looked at, so a run on too low a rank never ends in the
unit-size failure, whatever the sizes are. -/
theorem squeeze_insufficient_rank_below_max (raw : List Int) (op : SqueezeOp)
    (input out : Tensor) (hctor : SqueezeOp.ctor raw = .ok op)
    (hmax : back op.dims_ < 2147483647) :
    (back op.dims_ ∈ op.dims_ ∧ ∀ a ∈ op.dims_, a ≤ back op.dims_) ∧
    ((∃ n, (op.RunOnDevice input out).result = .error (.InsufficientRank n)) ↔
      (input.dims.length : Int) ≤ back op.dims_) ∧
    ((input.dims.length : Int) ≤ back op.dims_ →
      (op.RunOnDevice input out).result = .error (.InsufficientRank (back op.dims_ + 1)) ∧
      ∀ axis size, (op.RunOnDevice input out).result ≠ .error (.NonUnitDimension axis size)) := by
  obtain ⟨A⟩ := op
  obtain ⟨s, data⟩ := input
  have hA : AxisSet A := initDims_axisSet raw A ((squeeze_ctor_ok raw ⟨A⟩).1 hctor)
  have hlow : (s.length : Int) ≤ back A →
      (SqueezeOp.RunOnDevice ⟨A⟩ ⟨s, data⟩ out).result =
        .error (.InsufficientRank (back A + 1)) := by
    intro h
    have hb := hA.nonneg _ (back_mem A hA.nonempty)
    have hm : back A < 2147483647 := hmax
    rw [squeeze_run_rank_fail A s data out h,
      toInt_of_range (back A + 1) (by omega) (by omega)]
  refine ⟨back_largest A hA, ?_, ?_⟩
  · constructor
    · rintro ⟨n, hn⟩
      show (s.length : Int) ≤ back A
      by_contra hgt
      have hg : (s.length : Int) > back A := by omega
      simp only [SqueezeOp.RunOnDevice, Tensor.CopyFrom, Tensor.ndim] at hn
      rw [if_pos hg] at hn
      cases hc : SqueezeOp.ComputeDims s A with
      | ok v => rw [hc] at hn; cases hn
      | error e =>
        rw [hc] at hn
        have he : e = .InsufficientRank n := Except.error.inj hn
        rw [he] at hc
        exact computeDims_not_rank A s n hc
    · intro h
      exact ⟨_, hlow h⟩
  · intro h
    refine ⟨hlow h, ?_⟩
    intro axis size hns
    rw [hlow h] at hns
    cases hns

/-- C8, at `dims = [2147483647]` (`INT_MAX`) and the shape `(2,3)`: construction
succeeds and the run throws the rank failure (`2 ≤ maxAxis`), but the number it
reports is `-2147483648` and not `maxAxis + 1 = 2147483648`: the `int` sum
`dims_.back() + 1` does not fit an `int`. -/
theorem C8_squeeze_rank_message_wraps :
    SqueezeOp.ctor [2147483647] = .ok ⟨[2147483647]⟩ ∧
    ((([2, 3] : List Int).length : Nat) : Int) ≤ back [2147483647] ∧
    (SqueezeOp.RunOnDevice ⟨[2147483647]⟩ ⟨[2, 3], []⟩ ⟨[], []⟩).result =
      .error (.InsufficientRank (-2147483648)) ∧
    back [2147483647] + 1 = 2147483648 ∧
    (SqueezeOp.RunOnDevice ⟨[2147483647]⟩ ⟨[2, 3], []⟩ ⟨[], []⟩).result ≠
      .error (.InsufficientRank (back [2147483647] + 1)) :=
  ⟨by decide, by decide, by decide, by decide, by decide⟩

/-- C9: for an axis set `A` stored by construction and an input shape `s` with
`len(s) > max(A)`, `SqueezeOp::RunOnDevice` throws the unit-size failure exactly
when some `a` in `A` has `s[a] ≠ 1`; the failure names the smallest such axis
and the size found there. -/
theorem C9_squeeze_non_unit (raw : List Int) (op : SqueezeOp) (input out : Tensor)
    (hctor : SqueezeOp.ctor raw = .ok op)
    (hrank : back op.dims_ < (input.dims.length : Int)) :
    ((∃ axis size, (op.RunOnDevice input out).result = .error (.NonUnitDimension axis size)) ↔
      ∃ a ∈ op.dims_, input.dims[a.toNat]? ≠ some 1) ∧
    (∀ axis size, (op.RunOnDevice input out).result = .error (.NonUnitDimension axis size) →
      axis ∈ op.dims_ ∧ input.dims[axis.toNat]? = some size ∧ size ≠ 1 ∧
      ∀ a ∈ op.dims_, input.dims[a.toNat]? ≠ some 1 → axis ≤ a) := by
  obtain ⟨A⟩ := op
  obtain ⟨s, data⟩ := input
  have hA : AxisSet A := initDims_axisSet raw A ((squeeze_ctor_ok raw ⟨A⟩).1 hctor)
  have hr : back A < (s.length : Int) := hrank
  show ((∃ axis size, (SqueezeOp.RunOnDevice ⟨A⟩ ⟨s, data⟩ out).result =
        .error (.NonUnitDimension axis size)) ↔ ∃ a ∈ A, s[a.toNat]? ≠ some 1) ∧
    (∀ axis size, (SqueezeOp.RunOnDevice ⟨A⟩ ⟨s, data⟩ out).result =
        .error (.NonUnitDimension axis size) →
      axis ∈ A ∧ s[axis.toNat]? = some size ∧ size ≠ 1 ∧
      ∀ a ∈ A, s[a.toNat]? ≠ some 1 → axis ≤ a)
  by_cases hbad : ∃ p : Nat, (p : Int) ∈ A ∧ ∃ d, s[p]? = some d ∧ d ≠ 1
  · -- the first targeted position whose size is not 1
    classical
    have hspec := Nat.find_spec hbad
    obtain ⟨hm, d, hd, hne⟩ := hspec
    have hfirst : ∀ (q : Nat) (e : Int), q < Nat.find hbad → s[q]? = some e → (q : Int) ∈ A →
        e = 1 := by
      intro q e hq hqe hqm
      by_contra hne1
      exact Nat.find_min hbad hq ⟨hqm, e, hqe, hne1⟩
    have hrun := squeeze_run_err A s data out hA.increasing hA.nonneg hr (Nat.find hbad) d hd hm
      hne hfirst
    rw [hrun]
    refine ⟨?_, ?_⟩
    · constructor
      · intro _
        refine ⟨_, hm, ?_⟩
        rw [Int.toNat_ofNat, hd]
        intro h1
        exact hne (Option.some.inj h1)
      · intro _
        exact ⟨_, _, rfl⟩
    · intro axis size h
      have h1 := Except.error.inj h
      injection h1 with h2 h3
      subst h2 h3
      refine ⟨hm, by rw [Int.toNat_ofNat]; exact hd, hne, ?_⟩
      intro a ha hane
      obtain ⟨q, e, haq, htq, hqe⟩ := axis_position A s hA.increasing hA.nonneg hr a ha
      rw [htq, hqe] at hane
      have hq : Nat.find hbad ≤ q :=
        Nat.find_min' hbad ⟨by rw [← haq]; exact ha, e, hqe, fun h1 => hane (by rw [h1])⟩
      rw [haq]
      exact_mod_cast hq
  · have hone : ∀ (p : Nat) (d : Int), s[p]? = some d → (p : Int) ∈ A → d = 1 := by
      intro p d hp hm
      by_contra hne
      exact hbad ⟨p, hm, d, hp, hne⟩
    have hrun := squeeze_run_ok A s data out hA.increasing hA.nonneg hr hone
    rw [hrun]
    refine ⟨?_, ?_⟩
    · constructor
      · rintro ⟨axis, size, h⟩; cases h
      · rintro ⟨a, ha, hane⟩
        exfalso
        obtain ⟨q, e, haq, htq, hqe⟩ := axis_position A s hA.increasing hA.nonneg hr a ha
        rw [htq, hqe] at hane
        exact hane (by rw [hone q e hqe (by rw [← haq]; exact ha)])
    · intro axis size h; cases h

/-- C9 at the shape `(2,1,3)`: `dims = [1]` succeeds with `(2,3)`, `dims = [0]`
throws the unit-size failure naming axis 0 and size 2. -/
theorem C9_squeeze_non_unit_witness :
    SqueezeOp.ctor [0] = .ok ⟨[0]⟩ ∧ back [0] < ((([2, 1, 3] : List Int).length : Nat) : Int) ∧
    (SqueezeOp.RunOnDevice ⟨[0]⟩ ⟨[2, 1, 3], []⟩ ⟨[], []⟩).result =
      .error (.NonUnitDimension 0 2) ∧
    (SqueezeOp.RunOnDevice ⟨[1]⟩ ⟨[2, 1, 3], []⟩ ⟨[], []⟩).result = .ok true ∧
    (SqueezeOp.RunOnDevice ⟨[1]⟩ ⟨[2, 1, 3], []⟩ ⟨[], []⟩).output.dims = [2, 3] ∧
    ((∃ axis size, (SqueezeOp.RunOnDevice ⟨[0]⟩ ⟨[2, 1, 3], []⟩ ⟨[], []⟩).result =
        .error (.NonUnitDimension axis size)) ↔
      ∃ a ∈ [(0 : Int)], ([2, 1, 3] : List Int)[a.toNat]? ≠ some 1) :=
  ⟨by decide, by decide, by decide, by decide, by decide,
    (C9_squeeze_non_unit [0] ⟨[0]⟩ ⟨[2, 1, 3], []⟩ ⟨[], []⟩ (by decide) (by decide)).1⟩

/-- C10 as stated fails: expanding the shape `(1,2,3)` with `dims = [1,3]` does
not produce `(1,1,2,3,1)`. -/
theorem C10_expand_example_refuted :
    ExpandDimsOp.ctor [1, 3] = .ok ⟨[1, 3]⟩ ∧
    ¬ ((ExpandDimsOp.RunOnDevice ⟨[1, 3]⟩ ⟨[1, 2, 3], []⟩ ⟨[], []⟩).result = .ok true ∧
       (ExpandDimsOp.RunOnDevice ⟨[1, 3]⟩ ⟨[1, 2, 3], []⟩ ⟨[], []⟩).output.dims =
         [1, 1, 2, 3, 1]) :=
  ⟨by decide, by decide⟩

/-- C10, amended: expanding the shape `(1,2,3)` with `dims = [1,3]` succeeds and
produces `(1,1,2,1,3)`, the new axes being at positions 1 and 3 of the
output. -/
theorem C10_expand_example :
    ExpandDimsOp.ctor [1, 3] = .ok ⟨[1, 3]⟩ ∧
    (ExpandDimsOp.RunOnDevice ⟨[1, 3]⟩ ⟨[1, 2, 3], []⟩ ⟨[], []⟩).result = .ok true ∧
    (ExpandDimsOp.RunOnDevice ⟨[1, 3]⟩ ⟨[1, 2, 3], []⟩ ⟨[], []⟩).output.dims =
      [1, 1, 2, 1, 3] :=
  ⟨by decide, by decide, by decide⟩

/-! # Further lemmas -/

/-! ## Normal forms of the constructor -/

theorem uniqueAux_of_increasing : ∀ (l : List Int) (p : Int), (∀ x ∈ l, p < x) →
    l.Pairwise (· < ·) → uniqueAux p l = l := by
  intro l
  induction l with
  | nil => intro p _ _; rfl
  | cons b t ih =>
    intro p hp hs
    have hs1 := List.pairwise_cons.1 hs
    have hpb : p ≠ b := ne_of_lt (hp b (List.mem_cons_self _ _))
    rw [uniqueAux, if_neg hpb, ih b hs1.1 hs1.2]

theorem unique_of_increasing (l : List Int) (hs : StrictlyIncreasing l) : unique l = l := by
  cases l with
  | nil => rfl
  | cons a t =>
    have hs1 := List.pairwise_cons.1 hs
    rw [unique, uniqueAux_of_increasing t a hs1.1 hs1.2]

theorem sort_of_increasing (l : List Int) (hs : StrictlyIncreasing l) : sort l = l :=
  List.Sorted.insertionSort_eq (List.Pairwise.imp (fun h => le_of_lt h) hs)

/-- Two strictly increasing vectors with the same values are the same vector. -/
theorem increasing_ext (l1 l2 : List Int) (h1 : StrictlyIncreasing l1)
    (h2 : StrictlyIncreasing l2) (h : ∀ x, x ∈ l1 ↔ x ∈ l2) : l1 = l2 := by
  have hp : l1.Perm l2 :=
    (List.perm_ext_iff_of_nodup (strictlyIncreasing_nodup l1 h1)
      (strictlyIncreasing_nodup l2 h2)).2 h
  have s1 : List.Sorted (· ≤ ·) l1 := List.Pairwise.imp (fun h => le_of_lt h) h1
  have s2 : List.Sorted (· ≤ ·) l2 := List.Pairwise.imp (fun h => le_of_lt h) h2
  exact List.eq_of_perm_of_sorted hp s1 s2

theorem length_unique_sort (raw : List Int) :
    (unique (sort raw)).length = raw.dedup.length := by
  have hp : (unique (sort raw)).Perm raw.dedup :=
    (List.perm_ext_iff_of_nodup (strictlyIncreasing_nodup _ (unique_sort_increasing raw))
      (List.nodup_dedup raw)).2 (fun x => by rw [mem_unique_sort, List.mem_dedup])
  exact hp.length_eq

/-- The test `dims_.size() < originalSize` finds out whether a value is
repeated. -/
theorem length_unique_sort_lt_iff (raw : List Int) :
    (unique (sort raw)).length < raw.length ↔ ¬ raw.Nodup := by
  rw [length_unique_sort]
  have hsub := List.dedup_sublist raw
  have hle := hsub.length_le
  constructor
  · intro hlt hnd
    rw [List.dedup_eq_self.2 hnd] at hlt
    omega
  · intro hnd
    by_contra hge
    have heq : raw.dedup.length = raw.length := by omega
    exact hnd (List.dedup_eq_self.1 (hsub.eq_of_length heq))

theorem initDims_log (raw : List Int) :
    (initDims raw).log = if raw.Nodup then [] else [repeatedWarning] := by
  by_cases h : raw = []
  · subst h; simp [initDims]
  · have hlen : raw.length > 0 := List.length_pos.2 h
    have hiff := length_unique_sort_lt_iff raw
    have hlog : (initDims raw).log =
        if (unique (sort raw)).length < raw.length then [repeatedWarning] else [] := by
      simp only [initDims, hlen, if_true]
      split <;> rfl
    rw [hlog]
    by_cases hnd : raw.Nodup
    · rw [if_pos hnd, if_neg (fun hlt => hiff.1 hlt hnd)]
    · rw [if_neg hnd, if_pos (hiff.2 hnd)]

/-- What `initDims` stores depends on the values of the raw list only. -/
theorem initDims_congr (raw1 raw2 : List Int) (h : ∀ x, x ∈ raw1 ↔ x ∈ raw2) :
    (initDims raw1).dims_ = (initDims raw2).dims_ := by
  have hnil : raw1 = [] ↔ raw2 = [] := by
    constructor
    · intro h1
      apply List.eq_nil_iff_forall_not_mem.2
      intro x hx
      have := (h x).2 hx
      rw [h1] at this
      simp at this
    · intro h2
      apply List.eq_nil_iff_forall_not_mem.2
      intro x hx
      have := (h x).1 hx
      rw [h2] at this
      simp at this
  have hnn : (∀ a ∈ raw1, 0 ≤ a) ↔ (∀ a ∈ raw2, 0 ≤ a) :=
    ⟨fun h1 a ha => h1 a ((h a).2 ha), fun h2 a ha => h2 a ((h a).1 ha)⟩
  have heq : unique (sort raw1) = unique (sort raw2) :=
    increasing_ext _ _ (unique_sort_increasing raw1) (unique_sort_increasing raw2)
      (fun x => by rw [mem_unique_sort, mem_unique_sort]; exact h x)
  rw [initDims_dims, initDims_dims, heq]
  by_cases h1 : raw1 = []
  · rw [if_pos h1, if_pos (hnil.1 h1)]
  · rw [if_neg h1, if_neg (fun h2 => h1 (hnil.2 h2))]
    by_cases h3 : ∀ a ∈ raw1, 0 ≤ a
    · rw [if_pos h3, if_pos (hnn.1 h3)]
    · rw [if_neg h3, if_neg (fun h4 => h3 (hnn.2 h4))]

/-- Constructing from a stored `dims_` stores it again and logs nothing. -/
theorem initDims_stored (A : List Int) (hA : AxisSet A) :
    (initDims A).dims_ = .ok A ∧ (initDims A).log = [] := by
  constructor
  · rw [initDims_dims, if_neg hA.nonempty, if_pos hA.nonneg,
      sort_of_increasing A hA.increasing, unique_of_increasing A hA.increasing]
  · rw [initDims_log, if_pos (strictlyIncreasing_nodup A hA.increasing)]

/-! ## Success of `ExpandDimsOp::RunOnDevice` -/

/-- A run of `ExpandDimsOp` returns `true` exactly from the rank
`dims_.back() - dims_.size() + 1` on. -/
theorem expand_ok_iff (A s : List Int) (data : List Nat) (out : Tensor) (hA : AxisSet A)
    (hint : ∀ a ∈ A, IsInt a) :
    (ExpandDimsOp.RunOnDevice ⟨A⟩ ⟨s, data⟩ out).result = .ok true ↔
      back A - (A.length : Int) + 1 ≤ (s.length : Int) := by
  by_cases h : back A + 1 ≤ (s.length : Int) + (A.length : Int)
  · obtain ⟨t, ht, _⟩ := expand_run_ok A s data out hA hint h
    rw [ht]
    constructor
    · intro _; omega
    · intro _; rfl
  · rw [expand_run_fail A s data out hA hint (by omega)]
    constructor
    · intro h1; cases h1
    · intro h1; omega

/-! # Further properties of the specification -/

/-- C11 as stated fails: for `dims = [5]` and the shape `(2,3)` the number the
rank failure reports is not 4, and a run on a shape of rank 4 does not
succeed. -/
theorem C11_expand_rank_example_refuted :
    ExpandDimsOp.ctor [5] = .ok ⟨[5]⟩ ∧
    ¬ ((ExpandDimsOp.RunOnDevice ⟨[5]⟩ ⟨[2, 3], []⟩ ⟨[], []⟩).result =
        .error (.InsufficientRank 4)) ∧
    (ExpandDimsOp.RunOnDevice ⟨[5]⟩ ⟨[1, 1, 1, 1], []⟩ ⟨[], []⟩).result =
      .error (.InsufficientRank 5) :=
  ⟨by decide, by decide, by decide⟩

/-- C11, amended: for `dims = [5]` and the shape `(2,3)` the run throws the rank
failure; the number it reports is 5, and 5 is the least rank at which a run with
this configuration returns `true`. -/
theorem C11_expand_rank_example :
    ExpandDimsOp.ctor [5] = .ok ⟨[5]⟩ ∧
    (ExpandDimsOp.RunOnDevice ⟨[5]⟩ ⟨[2, 3], []⟩ ⟨[], []⟩).result =
      .error (.InsufficientRank 5) ∧
    ∀ (s : List Int) (data : List Nat) (out : Tensor),
      (ExpandDimsOp.RunOnDevice ⟨[5]⟩ ⟨s, data⟩ out).result = .ok true ↔ 5 ≤ s.length := by
  refine ⟨by decide, by decide, ?_⟩
  intro s data out
  have hA : AxisSet [5] := ⟨by decide, by decide, by decide⟩
  rw [expand_ok_iff [5] s data out hA (by decide)]
  simp only [back, List.length_singleton, Nat.cast_one]
  omega

/-- C12: construction from a non-empty raw list without negative values
succeeds in both operators, repeated values or not, and the warning
"Parameter `dims` has repeated dimensions." is logged exactly when some value
occurs more than once in the raw list. -/
theorem C12_duplicate_warning (raw : List Int) (hne : raw ≠ []) (hnn : ∀ a ∈ raw, 0 ≤ a) :
    ExpandDimsOp.ctor raw = .ok ⟨unique (sort raw)⟩ ∧
    SqueezeOp.ctor raw = .ok ⟨unique (sort raw)⟩ ∧
    ((initDims raw).log = [repeatedWarning] ↔ ∃ x, 1 < raw.count x) ∧
    ((initDims raw).log = [] ↔ ∀ x, raw.count x ≤ 1) := by
  have hdup : ¬ raw.Nodup ↔ ∃ x, 1 < raw.count x := by
    rw [List.nodup_iff_count_le_one]
    push_neg
    rfl
  refine ⟨?_, ?_, ?_, ?_⟩
  · rw [expand_ctor_eq, if_neg hne, if_pos hnn]
  · rw [squeeze_ctor_eq, if_neg hne, if_pos hnn]
  · rw [← hdup, initDims_log]
    by_cases hnd : raw.Nodup
    · rw [if_pos hnd]
      constructor
      · intro h; cases h
      · intro h; exact absurd hnd h
    · rw [if_neg hnd]
      exact ⟨fun _ => hnd, fun _ => rfl⟩
  · rw [← List.nodup_iff_count_le_one, initDims_log]
    by_cases hnd : raw.Nodup
    · rw [if_pos hnd]
      exact ⟨fun _ => hnd, fun _ => rfl⟩
    · rw [if_neg hnd]
      constructor
      · intro h; cases h
      · intro h; exact absurd h hnd

/-- C12 at `dims = [2,2,1]`: stored as `[1,2]`, with the warning and no
failure. -/
theorem C12_duplicate_warning_witness :
    ([2, 2, 1] : List Int) ≠ [] ∧ (∀ a ∈ ([2, 2, 1] : List Int), 0 ≤ a) ∧
    ExpandDimsOp.ctor [2, 2, 1] = .ok ⟨[1, 2]⟩ ∧ SqueezeOp.ctor [2, 2, 1] = .ok ⟨[1, 2]⟩ ∧
    (initDims [2, 2, 1]).log = [repeatedWarning] ∧
    ((initDims [2, 2, 1]).log = [repeatedWarning] ↔ ∃ x, 1 < ([2, 2, 1] : List Int).count x) :=
  ⟨by decide, by decide, by decide, by decide, by decide,
    (C12_duplicate_warning [2, 2, 1] (by decide) (by decide)).2.2.1⟩

/-- C13: the `dims_` stored by a successful construction of either operator is
non-empty with all entries non-negative; hence `dims_.back()` is an entry of it
(the largest), and the test `dims_.empty()` at the head of
`ExpandDimsOp::RunOnDevice` is false, so the branch returning the plain copy is
never taken. -/
theorem C13_stored_axes_invariant (raw A : List Int)
    (h : ExpandDimsOp.ctor raw = .ok ⟨A⟩ ∨ SqueezeOp.ctor raw = .ok ⟨A⟩) :
    A ≠ [] ∧ (∀ a ∈ A, 0 ≤ a) ∧ (back A ∈ A ∧ ∀ a ∈ A, a ≤ back A) ∧
    (ExpandDimsOp.mk A).dims_.isEmpty = false := by
  have hA : AxisSet A := initDims_axisSet raw A (ctor_axisSet raw A h)
  refine ⟨hA.nonempty, hA.nonneg, back_largest A hA, ?_⟩
  cases A with
  | nil => exact absurd rfl hA.nonempty
  | cons a t => rfl

/-- C13 at the raw list `[3,0]`, stored as `[0,3]`. -/
theorem C13_stored_axes_invariant_witness :
    (ExpandDimsOp.ctor [3, 0] = .ok ⟨[0, 3]⟩ ∨ SqueezeOp.ctor [3, 0] = .ok ⟨[0, 3]⟩) ∧
    ([0, 3] : List Int) ≠ [] ∧ (∀ a ∈ ([0, 3] : List Int), 0 ≤ a) ∧
    (back [0, 3] ∈ ([0, 3] : List Int) ∧ ∀ a ∈ ([0, 3] : List Int), a ≤ back [0, 3]) ∧
    (ExpandDimsOp.mk [0, 3]).dims_.isEmpty = false :=
  ⟨Or.inr (by decide), C13_stored_axes_invariant [3, 0] [0, 3] (Or.inr (by decide))⟩

/-- What `ExpandDimsOp::RunOnDevice` leaves in the output: always the input's
buffer, and the input itself when the run ends in a failure. -/
theorem expand_frame (op : ExpandDimsOp) (input out : Tensor) :
    (op.RunOnDevice input out).output.data = input.data ∧
    (∀ e, (op.RunOnDevice input out).result = .error e →
      (op.RunOnDevice input out).output = input) := by
  unfold ExpandDimsOp.RunOnDevice
  simp only [Tensor.CopyFrom]
  by_cases h1 : op.dims_.isEmpty = true
  · rw [if_pos h1]
    exact ⟨rfl, fun e h => by cases h⟩
  · rw [if_neg h1]
    by_cases h2 : input.dims.length + op.dims_.length ≥ toSizeT (back op.dims_ + 1)
    · rw [if_pos h2]
      cases ExpandDimsOp.insertLoop op.dims_ input.dims with
      | ok t => exact ⟨rfl, fun e h => by cases h⟩
      | error e0 => exact ⟨rfl, fun _ _ => rfl⟩
    · rw [if_neg h2]
      exact ⟨rfl, fun _ _ => rfl⟩

/-- What `SqueezeOp::RunOnDevice` leaves in the output: always the input's
buffer, and the input itself when the run ends in a failure. -/
theorem squeeze_frame (op : SqueezeOp) (input out : Tensor) :
    (op.RunOnDevice input out).output.data = input.data ∧
    (∀ e, (op.RunOnDevice input out).result = .error e →
      (op.RunOnDevice input out).output = input) := by
  unfold SqueezeOp.RunOnDevice
  simp only [Tensor.CopyFrom]
  by_cases h1 : input.ndim > back op.dims_
  · rw [if_pos h1]
    cases SqueezeOp.ComputeDims input.dims op.dims_ with
    | ok t => exact ⟨rfl, fun e h => by cases h⟩
    | error e0 => exact ⟨rfl, fun _ _ => rfl⟩
  · rw [if_neg h1]
    exact ⟨rfl, fun _ _ => rfl⟩

/-! ## Runs on a wired operator -/

theorem setOutput_Output {Op : Type} (w : Wired Op) (t : Tensor) :
    (w.setOutput t).Output = t := by
  simp [Wired.setOutput, Wired.Output]

/-- Copying the input into the output leaves the input as it is, also when the
two are the same tensor. -/
theorem setOutput_Input_copy {Op : Type} (w : Wired Op) :
    (w.setOutput w.Input).Input = w.Input := by
  simp [Wired.setOutput, Wired.Input]

theorem setOutput_setOutput {Op : Type} (w : Wired Op) (t t1 : Tensor) :
    (w.setOutput t).setOutput t1 = w.setOutput t1 := by
  simp only [Wired.setOutput]
  congr 1
  funext b
  by_cases hb : b = w.output0
  · simp [hb]
  · simp [hb]

theorem setOutput_other {Op : Type} (w : Wired Op) (t : Tensor) (b : Nat)
    (hb : b ≠ w.output0) : (w.setOutput t).blobs b = w.blobs b := by
  simp [Wired.setOutput, hb]

/-- The statement-by-statement run of `ExpandDimsOp` writes into the output
tensor what the run on the values of input and output computes, and nothing
else. -/
theorem expand_execute_eq (w : Wired ExpandDimsOp) :
    ExpandDimsOp.execute w =
      ⟨w.setOutput (w.op.RunOnDevice w.Input w.Output).output,
        (w.op.RunOnDevice w.Input w.Output).result⟩ := by
  have hop : (w.setOutput w.Input).op = w.op := rfl
  simp only [ExpandDimsOp.execute, ExpandDimsOp.RunOnDevice, Tensor.CopyFrom,
    setOutput_Input_copy, setOutput_Output, setOutput_setOutput, hop]
  by_cases h1 : w.op.dims_.isEmpty = true
  · rw [if_pos h1, if_pos h1]
  · rw [if_neg h1, if_neg h1]
    by_cases h2 : w.Input.dims.length + w.op.dims_.length ≥ toSizeT (back w.op.dims_ + 1)
    · rw [if_pos h2, if_pos h2]
      cases ExpandDimsOp.insertLoop w.op.dims_ w.Input.dims with
      | ok t => rfl
      | error e0 => rfl
    · rw [if_neg h2, if_neg h2]

/-- The statement-by-statement run of `SqueezeOp` writes into the output tensor
what the run on the values of input and output computes, and nothing else. -/
theorem squeeze_execute_eq (w : Wired SqueezeOp) :
    SqueezeOp.execute w =
      ⟨w.setOutput (w.op.RunOnDevice w.Input w.Output).output,
        (w.op.RunOnDevice w.Input w.Output).result⟩ := by
  have hop : (w.setOutput w.Input).op = w.op := rfl
  simp only [SqueezeOp.execute, SqueezeOp.RunOnDevice, Tensor.CopyFrom,
    setOutput_Input_copy, setOutput_Output, setOutput_setOutput, hop]
  by_cases h1 : w.Input.ndim > back w.op.dims_
  · rw [if_pos h1, if_pos h1]
    cases SqueezeOp.ComputeDims w.Input.dims w.op.dims_ with
    | ok t => rfl
    | error e0 => rfl
  · rw [if_neg h1, if_neg h1]

/-- The frame of a run that writes `ran.output` into the output tensor, where
`ran.output` has the input's buffer and is the input itself on failure. -/
theorem wired_frame {Op : Type} (w : Wired Op) (ran : Ran)
    (hdata : ran.output.data = w.Input.data)
    (hfail : ∀ e, ran.result = .error e → ran.output = w.Input) :
    (w.setOutput ran.output).op = w.op ∧
    (w.setOutput ran.output).input0 = w.input0 ∧
    (w.setOutput ran.output).output0 = w.output0 ∧
    (∀ b, b ≠ w.output0 → (w.setOutput ran.output).blobs b = w.blobs b) ∧
    (w.setOutput ran.output).Output.data = w.Input.data ∧
    (w.setOutput ran.output).Input.data = w.Input.data ∧
    (∀ e, ran.result = .error e →
      (w.setOutput ran.output).Output = w.Input ∧ (w.setOutput ran.output).Input = w.Input) := by
  have hin : (w.setOutput ran.output).Input =
      if w.input0 = w.output0 then ran.output else w.Input := by
    simp [Wired.setOutput, Wired.Input]
  refine ⟨rfl, rfl, rfl, fun b hb => setOutput_other w _ b hb, ?_, ?_, ?_⟩
  · rw [setOutput_Output, hdata]
  · rw [hin]
    split
    · exact hdata
    · rfl
  · intro e he
    refine ⟨by rw [setOutput_Output]; exact hfail e he, ?_⟩
    rw [hin]
    split
    · exact hfail e he
    · rfl

/-- C14 as stated fails: in an in-place call (`Output(0)` is the `Input(0)`
tensor) that succeeds, the input tensor does not stay as it was. `ExpandDimsOp`
with `dims = [0]` turns the shape `(2,3)` of its input into `(1,2,3)`, and
`SqueezeOp` with `dims = [0]` turns the shape `(1,2,3)` of its input into
`(2,3)`. -/
theorem C14_in_place_changes_input :
    (ExpandDimsOp.execute ⟨⟨[0]⟩, fun _ => ⟨[2, 3], [1, 2, 3, 4, 5, 6]⟩, 0, 0⟩).result =
      .ok true ∧
    (ExpandDimsOp.execute ⟨⟨[0]⟩, fun _ => ⟨[2, 3], [1, 2, 3, 4, 5, 6]⟩, 0, 0⟩).after.Input =
      ⟨[1, 2, 3], [1, 2, 3, 4, 5, 6]⟩ ∧
    (ExpandDimsOp.execute ⟨⟨[0]⟩, fun _ => ⟨[2, 3], [1, 2, 3, 4, 5, 6]⟩, 0, 0⟩).after.Input ≠
      (Wired.mk (ExpandDimsOp.mk [0]) (fun _ => ⟨[2, 3], [1, 2, 3, 4, 5, 6]⟩) 0 0).Input ∧
    (SqueezeOp.execute ⟨⟨[0]⟩, fun _ => ⟨[1, 2, 3], [1, 2, 3, 4, 5, 6]⟩, 0, 0⟩).result =
      .ok true ∧
    (SqueezeOp.execute ⟨⟨[0]⟩, fun _ => ⟨[1, 2, 3], [1, 2, 3, 4, 5, 6]⟩, 0, 0⟩).after.Input ≠
      (Wired.mk (SqueezeOp.mk [0]) (fun _ => ⟨[1, 2, 3], [1, 2, 3, 4, 5, 6]⟩) 0 0).Input :=
  ⟨by decide, by decide, by decide, by decide, by decide⟩

/-- C14, amended: a run of either operator leaves the operator (its `dims_`) and
its wiring as they were and writes no tensor but the output; so the input
tensor is unchanged whenever it is not also the output tensor, and in every
case keeps its buffer. The output's buffer is the input's. When the run fails
with the rank failure or the unit-size failure, the output is exactly the input
as it was (its shape and its buffer), and so is the input, in place or not. -/
theorem C14_invocation_frame (e : Wired ExpandDimsOp) (q : Wired SqueezeOp) :
    ((ExpandDimsOp.execute e).after.op = e.op ∧
     (ExpandDimsOp.execute e).after.input0 = e.input0 ∧
     (ExpandDimsOp.execute e).after.output0 = e.output0 ∧
     (∀ b, b ≠ e.output0 → (ExpandDimsOp.execute e).after.blobs b = e.blobs b) ∧
     (ExpandDimsOp.execute e).after.Output.data = e.Input.data ∧
     (ExpandDimsOp.execute e).after.Input.data = e.Input.data ∧
     (∀ n, (ExpandDimsOp.execute e).result = .error (.InsufficientRank n) →
        (ExpandDimsOp.execute e).after.Output = e.Input ∧
        (ExpandDimsOp.execute e).after.Input = e.Input) ∧
     (∀ axis size, (ExpandDimsOp.execute e).result = .error (.NonUnitDimension axis size) →
        (ExpandDimsOp.execute e).after.Output = e.Input ∧
        (ExpandDimsOp.execute e).after.Input = e.Input)) ∧
    ((SqueezeOp.execute q).after.op = q.op ∧
     (SqueezeOp.execute q).after.input0 = q.input0 ∧
     (SqueezeOp.execute q).after.output0 = q.output0 ∧
     (∀ b, b ≠ q.output0 → (SqueezeOp.execute q).after.blobs b = q.blobs b) ∧
     (SqueezeOp.execute q).after.Output.data = q.Input.data ∧
     (SqueezeOp.execute q).after.Input.data = q.Input.data ∧
     (∀ n, (SqueezeOp.execute q).result = .error (.InsufficientRank n) →
        (SqueezeOp.execute q).after.Output = q.Input ∧
        (SqueezeOp.execute q).after.Input = q.Input) ∧
     (∀ axis size, (SqueezeOp.execute q).result = .error (.NonUnitDimension axis size) →
        (SqueezeOp.execute q).after.Output = q.Input ∧
        (SqueezeOp.execute q).after.Input = q.Input)) := by
  obtain ⟨he1, he2⟩ := expand_frame e.op e.Input e.Output
  obtain ⟨hq1, hq2⟩ := squeeze_frame q.op q.Input q.Output
  obtain ⟨a1, a2, a3, a4, a5, a6, a7⟩ := wired_frame e _ he1 he2
  obtain ⟨b1, b2, b3, b4, b5, b6, b7⟩ := wired_frame q _ hq1 hq2
  rw [expand_execute_eq e, squeeze_execute_eq q]
  exact ⟨⟨a1, a2, a3, a4, a5, a6, fun n h => a7 _ h, fun axis size h => a7 _ h⟩,
    ⟨b1, b2, b3, b4, b5, b6, fun n h => b7 _ h, fun axis size h => b7 _ h⟩⟩

/-- C14 at two failing runs: `ExpandDimsOp` with `dims = [5]` on an input of
shape `(2,3)` in tensor 0 and the output in tensor 1 (rank failure), and an
in-place `SqueezeOp` with `dims = [0]` on the shape `(2,1,3)` (unit-size
failure). -/
theorem C14_invocation_frame_witness :
    (ExpandDimsOp.execute ⟨⟨[5]⟩,
      fun b => if b = 0 then ⟨[2, 3], [1, 2, 3, 4, 5, 6]⟩ else ⟨[7], []⟩, 0, 1⟩).result =
        .error (.InsufficientRank 5) ∧
    (ExpandDimsOp.execute ⟨⟨[5]⟩,
      fun b => if b = 0 then ⟨[2, 3], [1, 2, 3, 4, 5, 6]⟩ else ⟨[7], []⟩, 0, 1⟩).after.Output =
        ⟨[2, 3], [1, 2, 3, 4, 5, 6]⟩ ∧
    (SqueezeOp.execute ⟨⟨[0]⟩, fun _ => ⟨[2, 1, 3], [1, 2, 3, 4, 5, 6]⟩, 0, 0⟩).result =
      .error (.NonUnitDimension 0 2) ∧
    (SqueezeOp.execute ⟨⟨[0]⟩, fun _ => ⟨[2, 1, 3], [1, 2, 3, 4, 5, 6]⟩, 0, 0⟩).after.Input =
      ⟨[2, 1, 3], [1, 2, 3, 4, 5, 6]⟩ :=
  have hw := C14_invocation_frame
    ⟨⟨[5]⟩, fun b => if b = 0 then ⟨[2, 3], [1, 2, 3, 4, 5, 6]⟩ else ⟨[7], []⟩, 0, 1⟩
    ⟨⟨[0]⟩, fun _ => ⟨[2, 1, 3], [1, 2, 3, 4, 5, 6]⟩, 0, 0⟩
  ⟨by decide, (hw.1.2.2.2.2.2.2.1 5 (by decide)).1, by decide,
    (hw.2.2.2.2.2.2.2.2 0 2 (by decide)).2⟩

/-- C19: two raw lists with the same set of values give the same outcome of
construction, failure for failure and stored `dims_` for stored `dims_`, in both
operators; and constructing from a stored `dims_` stores it again, unchanged,
without the warning. -/
theorem C19_normalization_by_value_set (raw1 raw2 : List Int)
    (h : ∀ x, x ∈ raw1 ↔ x ∈ raw2) :
    ExpandDimsOp.ctor raw1 = ExpandDimsOp.ctor raw2 ∧
    SqueezeOp.ctor raw1 = SqueezeOp.ctor raw2 ∧
    (∀ A, (ExpandDimsOp.ctor raw1 = .ok ⟨A⟩ ∨ SqueezeOp.ctor raw1 = .ok ⟨A⟩) →
      ExpandDimsOp.ctor A = .ok ⟨A⟩ ∧ SqueezeOp.ctor A = .ok ⟨A⟩ ∧ (initDims A).log = []) := by
  have hc := initDims_congr raw1 raw2 h
  refine ⟨?_, ?_, ?_⟩
  · unfold ExpandDimsOp.ctor; rw [hc]
  · unfold SqueezeOp.ctor; rw [hc]
  · intro A hA
    have hax : AxisSet A := initDims_axisSet raw1 A (ctor_axisSet raw1 A hA)
    obtain ⟨h1, h2⟩ := initDims_stored A hax
    exact ⟨(expand_ctor_ok A ⟨A⟩).2 h1, (squeeze_ctor_ok A ⟨A⟩).2 h1, h2⟩

/-- C19 at the raw lists `[2,2,1]` and `[1,2]`: both are stored as `[1,2]`, and
`[1,2]` is stored as itself without the warning. -/
theorem C19_normalization_by_value_set_witness :
    (∀ x, x ∈ ([2, 2, 1] : List Int) ↔ x ∈ ([1, 2] : List Int)) ∧
    ExpandDimsOp.ctor [2, 2, 1] = .ok ⟨[1, 2]⟩ ∧
    ExpandDimsOp.ctor [2, 2, 1] = ExpandDimsOp.ctor [1, 2] ∧
    SqueezeOp.ctor [2, 2, 1] = SqueezeOp.ctor [1, 2] ∧
    (initDims [1, 2]).log = [] :=
  have hm : ∀ x, x ∈ ([2, 2, 1] : List Int) ↔ x ∈ ([1, 2] : List Int) := by
    intro x
    simp only [List.mem_cons, List.mem_singleton, List.not_mem_nil, or_false]
    tauto
  have hw := C19_normalization_by_value_set [2, 2, 1] [1, 2] hm
  ⟨hm, by decide, hw.1, hw.2.1, (hw.2.2 [1, 2] (Or.inl (by decide))).2.2⟩

/-! ## More on the merge loop -/

/-- Every entry visited by the loop is either appended or matched by the
cursor. -/
theorem loop_length (dims : List Int) : ∀ (rest : List Int) (i j : Nat) (acc r : List Int)
    (j1 : Nat), SqueezeOp.ComputeDims.loop dims rest i j acc = .ok (r, j1) →
    r.length + j1 = acc.length + rest.length + j := by
  intro rest
  induction rest with
  | nil =>
    intro i j acc r j1 h
    simp only [SqueezeOp.ComputeDims.loop, Except.ok.injEq, Prod.mk.injEq] at h
    obtain ⟨h1, h2⟩ := h
    subst h1 h2
    simp
  | cons d rest ih =>
    intro i j acc r j1 h
    rw [SqueezeOp.ComputeDims.loop] at h
    split at h
    · split at h
      · have := ih _ _ _ _ _ h
        simp only [List.length_cons]
        omega
      · cases h
    · have := ih _ _ _ _ _ h
      simp only [List.length_append, List.length_singleton, List.length_cons,
        List.length_nil] at this ⊢
      omega

/-- Past the largest axis the cursor has run through all of `dims`. -/
theorem cursor_end (A : List Int) (n j : Nat) (hs : StrictlyIncreasing A)
    (hn : back A < (n : Int)) (hc : Cursor A n j) : j = A.length := by
  obtain ⟨hj, _, hhi⟩ := hc
  by_contra hne
  have hlt : j < A.length := by omega
  have hm : A[j] ∈ A.drop j := by
    rw [List.drop_eq_getElem_cons hlt]
    exact List.mem_cons_self _ _
  have h1 := hhi _ hm
  have h2 := le_back A hs _ (List.getElem_mem hlt)
  omega

/-- The two ways the loop of `SqueezeOp::ComputeDims` can end. -/
theorem loop_cases (A s : List Int) (hs : StrictlyIncreasing A) (hnn : ∀ a ∈ A, 0 ≤ a) :
    ((∀ (p : Nat) (d : Int), s[p]? = some d → (p : Int) ∈ A → d = 1) ∧
      ∃ j1, SqueezeOp.ComputeDims.loop A s 0 0 [] = .ok ((keep A s).map toInt, j1) ∧
        Cursor A s.length j1) ∨
    (∃ (p : Nat) (d : Int), s[p]? = some d ∧ (p : Int) ∈ A ∧ d ≠ 1 ∧
      (∀ (q : Nat) (e : Int), q < p → s[q]? = some e → (q : Int) ∈ A → e = 1) ∧
      SqueezeOp.ComputeDims.loop A s 0 0 [] = .error (.NonUnitDimension (p : Int) d)) := by
  by_cases hbad : ∃ p : Nat, (p : Int) ∈ A ∧ ∃ d, s[p]? = some d ∧ d ≠ 1
  · right
    classical
    obtain ⟨hm, d, hd, hne⟩ := Nat.find_spec hbad
    have hfirst : ∀ (q : Nat) (e : Int), q < Nat.find hbad → s[q]? = some e → (q : Int) ∈ A →
        e = 1 := by
      intro q e hq hqe hqm
      by_contra hne1
      exact Nat.find_min hbad hq ⟨hqm, e, hqe, hne1⟩
    refine ⟨Nat.find hbad, d, hd, hm, hne, hfirst, ?_⟩
    have h := loop_err A hs s 0 0 [] (Nat.find hbad) d (cursor_start A hnn) hd
      (by simpa using hm) hne (fun q e hq hqe hqm => hfirst q e hq hqe (by simpa using hqm))
    simpa using h
  · left
    have hone : ∀ (p : Nat) (d : Int), s[p]? = some d → (p : Int) ∈ A → d = 1 := by
      intro p d hp hm
      by_contra hne
      exact hbad ⟨p, hm, d, hp, hne⟩
    exact ⟨hone, computeDims_ok A s hs hnn hone⟩

theorem computeDims_of_loop_ok (A s r : List Int) (j : Nat)
    (h : SqueezeOp.ComputeDims.loop A s 0 0 [] = .ok (r, j)) :
    SqueezeOp.ComputeDims s A = .ok r := by
  unfold SqueezeOp.ComputeDims
  rw [h]; rfl

theorem computeDims_of_loop_error (A s : List Int) (e : RuntimeError)
    (h : SqueezeOp.ComputeDims.loop A s 0 0 [] = .error e) :
    SqueezeOp.ComputeDims s A = .error e := by
  unfold SqueezeOp.ComputeDims
  rw [h]; rfl

/-! ## More on `keepFrom` -/

theorem keepFrom_congr_lt (axes axes1 : List Int) : ∀ (l : List Int) (i : Nat),
    (∀ p : Nat, i ≤ p → p < i + l.length → ((p : Int) ∈ axes ↔ (p : Int) ∈ axes1)) →
    keepFrom axes i l = keepFrom axes1 i l := by
  intro l
  induction l with
  | nil => intro i _; simp [keepFrom]
  | cons d rest ih =>
    intro i h
    have hi := h i (le_refl i) (by simp)
    have hrest := ih (i + 1) (fun p hp hlt => h p (by omega) (by
      simp only [List.length_cons]; omega))
    unfold keepFrom
    by_cases hm : (i : Int) ∈ axes
    · rw [if_pos hm, if_pos (hi.1 hm), hrest]
    · rw [if_neg hm, if_neg (fun h1 => hm (hi.2 h1)), hrest]

theorem mem_keepFrom (axes : List Int) (x : Int) : ∀ (l : List Int) (i : Nat),
    x ∈ keepFrom axes i l → x ∈ l := by
  intro l
  induction l with
  | nil => intro i h; simp [keepFrom] at h
  | cons d rest ih =>
    intro i h
    rw [keepFrom] at h
    split at h
    · exact List.mem_cons_of_mem _ (ih _ h)
    · rcases List.mem_cons.1 h with h | h
      · rw [h]; exact List.mem_cons_self _ _
      · exact List.mem_cons_of_mem _ (ih _ h)

/-- A vector is determined by its length, its entries at the axes and its
entries elsewhere. -/
theorem keepFrom_inj (axes : List Int) : ∀ (l1 l2 : List Int) (i : Nat),
    l1.length = l2.length →
    (∀ p : Nat, ((i + p : Nat) : Int) ∈ axes → l1[p]? = l2[p]?) →
    keepFrom axes i l1 = keepFrom axes i l2 → l1 = l2 := by
  intro l1
  induction l1 with
  | nil =>
    intro l2 i hlen _ _
    cases l2 with
    | nil => rfl
    | cons d t => simp at hlen
  | cons d1 r1 ih =>
    intro l2 i hlen hax hk
    cases l2 with
    | nil => simp at hlen
    | cons d2 r2 =>
      have hlen1 : r1.length = r2.length := by simpa using hlen
      have hax1 : ∀ p : Nat, ((i + 1 + p : Nat) : Int) ∈ axes → r1[p]? = r2[p]? := by
        intro p hp
        have h2 : i + (p + 1) = i + 1 + p := by omega
        have := hax (p + 1) (by rw [h2]; exact hp)
        simpa using this
      rw [keepFrom, keepFrom] at hk
      by_cases hi : (i : Int) ∈ axes
      · rw [if_pos hi, if_pos hi] at hk
        have hd : d1 = d2 := by
          have := hax 0 (by simpa using hi)
          simpa using this
        rw [hd, ih r2 (i + 1) hlen1 hax1 hk]
      · rw [if_neg hi, if_neg hi] at hk
        have hc := List.cons.inj hk
        rw [hc.1, ih r2 (i + 1) hlen1 hax1 hc.2]

/-- C15: for an axis set `A` and a shape `s` with `len(s) > max(A)`, a merge of
`SqueezeOp::ComputeDims` that ends without a failure has matched every entry of
`A`: the cursor `j` ends at `len(A)`, every `a` in `A` was found to have size 1,
and exactly `len(A)` entries were left out of the result. -/
theorem C15_merge_matches_every_axis (A s : List Int) (hA : AxisSet A)
    (hrank : back A < (s.length : Int)) (r : List Int) (j : Nat)
    (hok : SqueezeOp.ComputeDims.loop A s 0 0 [] = .ok (r, j)) :
    j = A.length ∧ (∀ a ∈ A, s[a.toNat]? = some 1) ∧ r.length + A.length = s.length := by
  have hlen := loop_length A s 0 0 [] r j hok
  rcases loop_cases A s hA.increasing hA.nonneg with ⟨hone, j1, h1, hc⟩ | ⟨p, d, _, _, _, _, herr⟩
  · rw [hok] at h1
    have hj : j = j1 := (Prod.mk.inj (Except.ok.inj h1)).2
    subst hj
    have hjA := cursor_end A s.length j hA.increasing hrank hc
    refine ⟨hjA, ?_, ?_⟩
    · intro a ha
      obtain ⟨q, e, haq, htq, hqe⟩ := axis_position A s hA.increasing hA.nonneg hrank a ha
      rw [htq, hqe, hone q e hqe (by rw [← haq]; exact ha)]
    · simp only [List.length_nil] at hlen
      omega
  · rw [hok] at herr
    cases herr

/-- C15 at `A = [0,2]` and the shape `(1,5,1,7)`: the merge ends with the result
`(5,7)` and the cursor at 2. -/
theorem C15_merge_matches_every_axis_witness :
    AxisSet [0, 2] ∧ back [0, 2] < ((([1, 5, 1, 7] : List Int).length : Nat) : Int) ∧
    SqueezeOp.ComputeDims.loop [0, 2] [1, 5, 1, 7] 0 0 [] = .ok ([5, 7], 2) ∧
    (2 = ([0, 2] : List Int).length ∧
      (∀ a ∈ ([0, 2] : List Int), ([1, 5, 1, 7] : List Int)[a.toNat]? = some 1) ∧
      ([5, 7] : List Int).length + ([0, 2] : List Int).length =
        ([1, 5, 1, 7] : List Int).length) :=
  have hA : AxisSet [0, 2] := ⟨by decide, by decide, by decide⟩
  ⟨hA, by decide, by decide,
    C15_merge_matches_every_axis [0, 2] [1, 5, 1, 7] hA (by decide) [5, 7] 2 (by decide)⟩

/-- C16: for a strictly increasing, non-negative axis list `A` and a shape `s`
given to `SqueezeOp::ComputeDims` directly, the entries of `A` that are
`≥ len(s)` play no part: the outcome is that of `ComputeDims` with `A` restricted
to its entries `< len(s)`, and a failure, if any, is the unit-size failure at a
position of `s`. -/
theorem C16_out_of_range_axes_ignored (A s : List Int) (hs : StrictlyIncreasing A)
    (hnn : ∀ a ∈ A, 0 ≤ a) :
    SqueezeOp.ComputeDims s A =
      SqueezeOp.ComputeDims s (A.filter (fun a => decide (a < (s.length : Int)))) ∧
    (∀ e, SqueezeOp.ComputeDims s A = .error e →
      ∃ (p : Nat) (d : Int), e = .NonUnitDimension (p : Int) d ∧ p < s.length ∧
        s[p]? = some d ∧ d ≠ 1 ∧ (p : Int) ∈ A) := by
  have hsub : (A.filter (fun a => decide (a < (s.length : Int)))).Sublist A :=
    List.filter_sublist A
  have hs1 : StrictlyIncreasing (A.filter (fun a => decide (a < (s.length : Int)))) :=
    List.Pairwise.sublist hsub hs
  have hnn1 : ∀ a ∈ A.filter (fun a => decide (a < (s.length : Int))), 0 ≤ a :=
    fun a ha => hnn a (hsub.subset ha)
  have hmem : ∀ p : Nat, p < s.length →
      ((p : Int) ∈ A ↔ (p : Int) ∈ A.filter (fun a => decide (a < (s.length : Int)))) := by
    intro p hp
    rw [List.mem_filter]
    constructor
    · intro h; exact ⟨h, by simpa using hp⟩
    · intro h; exact h.1
  have hpos : ∀ (p : Nat) (d : Int), s[p]? = some d → p < s.length := by
    intro p d hp
    by_contra hge
    rw [List.getElem?_eq_none (by omega)] at hp
    cases hp
  rcases loop_cases A s hs hnn with ⟨hone, j1, h1, _⟩ | ⟨p, d, hp, hm, hd, hfirst, herr⟩
  · have hA := computeDims_of_loop_ok A s _ j1 h1
    have hone1 : ∀ (p : Nat) (d : Int), s[p]? = some d →
        (p : Int) ∈ A.filter (fun a => decide (a < (s.length : Int))) → d = 1 :=
      fun p d hp hm => hone p d hp (hsub.subset hm)
    obtain ⟨j2, h2, _⟩ := computeDims_ok _ s hs1 hnn1 hone1
    have hB := computeDims_of_loop_ok _ s _ j2 h2
    have hk : keep A s = keep (A.filter (fun a => decide (a < (s.length : Int)))) s :=
      keepFrom_congr_lt A _ s 0 (fun p _ hlt => hmem p (by omega))
    rw [hA, hB, hk]
    exact ⟨rfl, fun e h => by cases h⟩
  · have hA := computeDims_of_loop_error A s _ herr
    have hlt := hpos p d hp
    have hB := computeDims_err _ s hs1 hnn1 p d hp ((hmem p hlt).1 hm) hd
      (fun q e hq hqe hqm => hfirst q e hq hqe (hsub.subset hqm))
    rw [hA, hB]
    refine ⟨rfl, ?_⟩
    intro e he
    have he1 := Except.error.inj he
    exact ⟨p, d, he1.symm, hlt, hp, hd, hm⟩

/-- C16 at `A = [1,5]` and the shape `(2,1,3)`: axis 5 is out of range, and the
result `(2,3)` is that of `A = [1]`. -/
theorem C16_out_of_range_axes_ignored_witness :
    StrictlyIncreasing [1, 5] ∧ (∀ a ∈ ([1, 5] : List Int), 0 ≤ a) ∧
    SqueezeOp.ComputeDims [2, 1, 3] [1, 5] = .ok [2, 3] ∧
    SqueezeOp.ComputeDims [2, 1, 3] [1] = .ok [2, 3] ∧
    SqueezeOp.ComputeDims [2, 1, 3] [1, 5] =
      SqueezeOp.ComputeDims [2, 1, 3]
        (([1, 5] : List Int).filter
          (fun a => decide (a < ((([2, 1, 3] : List Int).length : Nat) : Int)))) :=
  ⟨by decide, by decide, by decide, by decide,
    (C16_out_of_range_axes_ignored [1, 5] [2, 1, 3] (by decide) (by decide)).1⟩

/-! ## Positions of the insertions -/

/-- In a strictly increasing vector of integers the entry at index `i` is at
least `len - 1 - i` below the last one. -/
theorem getElem_add_le_back : ∀ (A : List Int) (i : Nat) (a : Int), StrictlyIncreasing A →
    A[i]? = some a → a + (A.length : Int) ≤ back A + 1 + (i : Int) := by
  intro A
  induction A with
  | nil => intro i a _ h; simp at h
  | cons x t ih =>
    intro i a hs h
    have hs1 := List.pairwise_cons.1 hs
    cases i with
    | zero =>
      have hx : x = a := by simpa using h
      subst hx
      have := head_add_length_le_back t x hs
      simp only [List.length_cons, Nat.cast_add, Nat.cast_one]
      omega
    | succ i =>
      have ht : t[i]? = some a := by simpa using h
      cases t with
      | nil => simp at ht
      | cons b t1 =>
        have := ih i a hs1.2 ht
        rw [back_cons_cons]
        simp only [List.length_cons, Nat.cast_add, Nat.cast_one] at this ⊢
        omega

/-- The entries before index `i` are below the entry at index `i`. -/
theorem take_lt_getElem (A : List Int) (i : Nat) (a : Int) (hs : StrictlyIncreasing A)
    (h : A[i]? = some a) : ∀ x ∈ A.take i, x < a := by
  have hi : i < A.length := by
    by_contra hge
    rw [List.getElem?_eq_none (by omega)] at h
    cases h
  have ha : A[i] = a := by
    rw [List.getElem?_eq_getElem hi] at h
    exact Option.some.inj h
  have hsplit : (A.take i ++ A.drop i).Pairwise (· < ·) := by
    rw [List.take_append_drop]; exact hs
  have hall := (List.pairwise_append.1 hsplit).2.2
  intro x hx
  have hm : a ∈ A.drop i := by
    rw [List.drop_eq_getElem_cons hi, ha]
    exact List.mem_cons_self _ _
  exact hall x hx a hm

/-- The state of the insertion loop when it reaches the entry of index `i`: the
growing vector has length `rank + i` and the position to insert at is within
it. -/
theorem insertLoop_prefix (A s : List Int) (hA : AxisSet A)
    (hrank : back A + 1 ≤ (s.length : Int) + (A.length : Int)) (i : Nat) (a : Int)
    (hi : A[i]? = some a) :
    0 ≤ a ∧ a ≤ (s.length : Int) + (i : Int) ∧
    ∃ t, ExpandDimsOp.insertLoop (A.take i) s = .ok t ∧ t.length = s.length + i ∧
      insertAt t a 1 = some (t.take a.toNat ++ 1 :: t.drop a.toNat) := by
  have hlt : i < A.length := by
    by_contra hge
    rw [List.getElem?_eq_none (by omega)] at hi
    cases hi
  have hmem : a ∈ A := List.getElem?_mem hi
  have h0 : 0 ≤ a := hA.nonneg a hmem
  have hle : a ≤ (s.length : Int) + (i : Int) := by
    have := getElem_add_le_back A i a hA.increasing hi
    omega
  have hbelow := take_lt_getElem A i a hA.increasing hi
  have hsub : (A.take i).Sublist A := List.take_sublist i A
  have hlen : (A.take i).length = i := by
    rw [List.length_take]; omega
  obtain ⟨t, ht, htlen, _, _⟩ := insertLoop_spec (A.take i) s
    (List.Pairwise.sublist hsub hA.increasing) (fun x hx => hA.nonneg x (hsub.subset hx))
    (fun hne => by
      have := hbelow _ (back_mem _ hne)
      rw [hlen]
      omega)
  rw [hlen] at htlen
  refine ⟨h0, hle, t, ht, htlen, ?_⟩
  unfold insertAt
  rw [if_pos ⟨h0, by rw [htlen]; push_cast; exact hle⟩]

/-- C17: for an axis set `a_0 < ... < a_(k-1)` (C `int`s) and an input shape of
rank `r` with `r + k ≥ a_(k-1) + 1`, the insertion of index `i` finds the growing
vector at length `r + i` and inserts at `a_i` with `0 ≤ a_i ≤ r + i`, which
`std::vector::insert` is defined for; so the whole loop runs through and the run
never leaves defined behaviour. -/
theorem C17_insertions_in_range (A s : List Int) (data : List Nat) (out : Tensor)
    (hA : AxisSet A) (hint : ∀ a ∈ A, IsInt a)
    (hrank : back A + 1 ≤ (s.length : Int) + (A.length : Int)) :
    (∀ (i : Nat) (a : Int), A[i]? = some a →
      0 ≤ a ∧ a ≤ (s.length : Int) + (i : Int) ∧
      ∃ t, ExpandDimsOp.insertLoop (A.take i) s = .ok t ∧ t.length = s.length + i ∧
        insertAt t a 1 = some (t.take a.toNat ++ 1 :: t.drop a.toNat)) ∧
    (∃ t, ExpandDimsOp.insertLoop A s = .ok t) ∧
    (∀ dim size, (ExpandDimsOp.RunOnDevice ⟨A⟩ ⟨s, data⟩ out).result ≠
      .error (.InsertOutOfRange dim size)) := by
  refine ⟨fun i a hi => insertLoop_prefix A s hA hrank i a hi, ?_, ?_⟩
  · obtain ⟨t, ht, _⟩ := insertLoop_spec A s hA.increasing hA.nonneg (fun _ => hrank)
    exact ⟨t, ht⟩
  · intro dim size h
    obtain ⟨t, ht, _⟩ := expand_run_ok A s data out hA hint hrank
    rw [ht] at h
    cases h

/-- C17 at `A = [1,3]` and the shape `(1,2,3)`: the second insertion, at
position 3, finds the vector `(1,1,2,3)` of length 4. -/
theorem C17_insertions_in_range_witness :
    AxisSet [1, 3] ∧ (∀ a ∈ ([1, 3] : List Int), IsInt a) ∧
    back [1, 3] + 1 ≤
      ((([1, 2, 3] : List Int).length : Nat) : Int) + ((([1, 3] : List Int).length : Nat) : Int) ∧
    ExpandDimsOp.insertLoop (([1, 3] : List Int).take 1) [1, 2, 3] = .ok [1, 1, 2, 3] ∧
    insertAt [1, 1, 2, 3] 3 1 = some [1, 1, 2, 1, 3] ∧
    ((0 : Int) ≤ 3 ∧ (3 : Int) ≤ ((([1, 2, 3] : List Int).length : Nat) : Int) + ((1 : Nat) : Int) ∧
      ∃ t, ExpandDimsOp.insertLoop (([1, 3] : List Int).take 1) [1, 2, 3] = .ok t ∧
        t.length = ([1, 2, 3] : List Int).length + 1 ∧
        insertAt t 3 1 = some (t.take (3 : Int).toNat ++ 1 :: t.drop (3 : Int).toNat)) :=
  have hA : AxisSet [1, 3] := ⟨by decide, by decide, by decide⟩
  ⟨hA, by decide, by decide, by decide, by decide,
    (C17_insertions_in_range [1, 3] [1, 2, 3] [] ⟨[], []⟩ hA (by decide) (by decide)).1 1 3
      (by decide)⟩

/-! ## Successful runs of `SqueezeOp` -/

/-- What a run of `SqueezeOp` that returns `true` has gone through. -/
theorem squeeze_ok_inv (A s : List Int) (data : List Nat) (out : Tensor)
    (hs : StrictlyIncreasing A) (hnn : ∀ a ∈ A, 0 ≤ a)
    (h : (SqueezeOp.RunOnDevice ⟨A⟩ ⟨s, data⟩ out).result = .ok true) :
    back A < (s.length : Int) ∧
    (∀ (p : Nat) (d : Int), s[p]? = some d → (p : Int) ∈ A → d = 1) ∧
    SqueezeOp.RunOnDevice ⟨A⟩ ⟨s, data⟩ out = ⟨⟨(keep A s).map toInt, data⟩, .ok true⟩ := by
  by_cases hr : back A < (s.length : Int)
  · rcases loop_cases A s hs hnn with ⟨hone, _, _, _⟩ | ⟨p, d, hp, hm, hd, hfirst, _⟩
    · exact ⟨hr, hone, squeeze_run_ok A s data out hs hnn hr hone⟩
    · rw [squeeze_run_err A s data out hs hnn hr p d hp hm hd hfirst] at h
      cases h
  · rw [squeeze_run_rank_fail A s data out (by omega)] at h
    cases h

/-- A successful squeeze leaves out exactly `len(A)` entries. -/
theorem length_keep (A s : List Int) (hs : StrictlyIncreasing A) (hnn : ∀ a ∈ A, 0 ≤ a)
    (hr : back A < (s.length : Int))
    (hone : ∀ (p : Nat) (d : Int), s[p]? = some d → (p : Int) ∈ A → d = 1) :
    (keep A s).length + A.length = s.length := by
  obtain ⟨j1, h1, hc⟩ := computeDims_ok A s hs hnn hone
  have hlen := loop_length A s 0 0 [] _ j1 h1
  have hj := cursor_end A s.length j1 hs hr hc
  simp only [List.length_map, List.length_nil] at hlen
  omega

/-- Sizes that fit an `int` are stored into an `int` unchanged. -/
theorem keep_map_toInt (A s : List Int) (h : ∀ d ∈ s, IsInt d) :
    (keep A s).map toInt = keep A s :=
  map_toInt_of_isInt _ (fun d hd => h d (mem_keepFrom A d s 0 hd))

/-- Expanding what squeezing produced, with the same axes: the rank check
passes and the run returns `true`; when all sizes of the original shape fit an
`int`, the shape installed is the original one. -/
theorem expand_squeeze (A s : List Int) (data : List Nat) (out out1 : Tensor) (hA : AxisSet A)
    (hint : ∀ a ∈ A, IsInt a)
    (h : (SqueezeOp.RunOnDevice ⟨A⟩ ⟨s, data⟩ out).result = .ok true) :
    (ExpandDimsOp.RunOnDevice ⟨A⟩ (SqueezeOp.RunOnDevice ⟨A⟩ ⟨s, data⟩ out).output out1).result =
      .ok true ∧
    ((∀ d ∈ s, IsInt d) →
      (ExpandDimsOp.RunOnDevice ⟨A⟩ (SqueezeOp.RunOnDevice ⟨A⟩ ⟨s, data⟩ out).output out1).output =
        ⟨s, data⟩) := by
  obtain ⟨hr, hone, hrun⟩ := squeeze_ok_inv A s data out hA.increasing hA.nonneg h
  have hlen := length_keep A s hA.increasing hA.nonneg hr hone
  rw [hrun]
  have hg : back A + 1 ≤ ((((keep A s).map toInt).length : Nat) : Int) + (A.length : Int) := by
    rw [List.length_map]
    omega
  obtain ⟨t, ht, htlen, htone, htkeep⟩ :=
    expand_run_ok A ((keep A s).map toInt) data out1 hA hint hg
  show (ExpandDimsOp.RunOnDevice ⟨A⟩ ⟨(keep A s).map toInt, data⟩ out1).result = .ok true ∧
    ((∀ d ∈ s, IsInt d) →
      (ExpandDimsOp.RunOnDevice ⟨A⟩ ⟨(keep A s).map toInt, data⟩ out1).output = ⟨s, data⟩)
  rw [ht]
  refine ⟨rfl, ?_⟩
  intro hsz
  rw [keep_map_toInt A s hsz] at htkeep htlen
  have hts : t = s := by
    apply keepFrom_inj A t s 0 (by omega)
    · intro p hp
      have hp1 : (p : Int) ∈ A := by simpa using hp
      have h1 := htone _ hp1
      rw [Int.toNat_ofNat] at h1
      obtain ⟨q, e, haq, _, hqe⟩ :=
        axis_position A s hA.increasing hA.nonneg hr _ hp1
      have hq : q = p := by omega
      subst hq
      rw [h1, hqe, hone q e hqe hp1]
    · exact htkeep
  rw [hts]

/-- C18, at the shape `(1, 2^31)` with `dims = [0]`: squeezing succeeds with the
shape `(-2^31)`; expanding that with the same axis set passes the rank check and
returns `true`, but installs `(1, -2^31)`, not the original shape. -/
theorem C18_reverse_round_trip_narrows :
    SqueezeOp.ctor [0] = .ok ⟨[0]⟩ ∧ ExpandDimsOp.ctor [0] = .ok ⟨[0]⟩ ∧
    (SqueezeOp.RunOnDevice ⟨[0]⟩ ⟨[1, 2147483648], []⟩ ⟨[], []⟩).result = .ok true ∧
    (SqueezeOp.RunOnDevice ⟨[0]⟩ ⟨[1, 2147483648], []⟩ ⟨[], []⟩).output.dims = [-2147483648] ∧
    (ExpandDimsOp.RunOnDevice ⟨[0]⟩
      (SqueezeOp.RunOnDevice ⟨[0]⟩ ⟨[1, 2147483648], []⟩ ⟨[], []⟩).output ⟨[], []⟩).result =
        .ok true ∧
    (ExpandDimsOp.RunOnDevice ⟨[0]⟩
      (SqueezeOp.RunOnDevice ⟨[0]⟩ ⟨[1, 2147483648], []⟩ ⟨[], []⟩).output ⟨[], []⟩).output.dims =
        [1, -2147483648] ∧
    (ExpandDimsOp.RunOnDevice ⟨[0]⟩
      (SqueezeOp.RunOnDevice ⟨[0]⟩ ⟨[1, 2147483648], []⟩ ⟨[], []⟩).output ⟨[], []⟩).output.dims ≠
        [1, 2147483648] :=
  ⟨by decide, by decide, by decide, by decide, by decide, by decide, by decide⟩

/-- C20: `SqueezeOp::ComputeDims` stores the retained sizes into `int`s. On the
shape `(1, 2^31)` with `dims = [0]` the run returns `true` and the retained entry
comes out as `-2^31`, the 32-bit value of `2^31`. For every axis set and every
shape whose sizes fit an `int` (so for all sizes from 0 to below `2^31`), a run
that returns `true` installs the retained sizes exactly. `ExpandDimsOp` keeps
every size of every shape exactly. -/
theorem C20_squeeze_narrows_sizes (A s : List Int) (data : List Nat) (out : Tensor)
    (hA : AxisSet A) (hint : ∀ a ∈ A, IsInt a) :
    ((SqueezeOp.RunOnDevice ⟨[0]⟩ ⟨[1, 2147483648], []⟩ ⟨[], []⟩).result = .ok true ∧
      keep [0] [1, 2147483648] = [2147483648] ∧
      (SqueezeOp.RunOnDevice ⟨[0]⟩ ⟨[1, 2147483648], []⟩ ⟨[], []⟩).output.dims =
        [toInt 2147483648] ∧
      toInt 2147483648 = -2147483648 ∧ toInt 2147483648 ≠ 2147483648) ∧
    ((∀ d ∈ s, IsInt d) →
      (SqueezeOp.RunOnDevice ⟨A⟩ ⟨s, data⟩ out).result = .ok true →
      (SqueezeOp.RunOnDevice ⟨A⟩ ⟨s, data⟩ out).output.dims = keep A s) ∧
    ((ExpandDimsOp.RunOnDevice ⟨A⟩ ⟨s, data⟩ out).result = .ok true →
      keep A (ExpandDimsOp.RunOnDevice ⟨A⟩ ⟨s, data⟩ out).output.dims = s) := by
  refine ⟨⟨by decide, by decide, by decide, by decide, by decide⟩, ?_, ?_⟩
  · intro hsz hok
    obtain ⟨_, _, hrun⟩ := squeeze_ok_inv A s data out hA.increasing hA.nonneg hok
    rw [hrun]
    show (keep A s).map toInt = keep A s
    exact keep_map_toInt A s hsz
  · intro hok
    by_cases hg : back A + 1 ≤ (s.length : Int) + (A.length : Int)
    · obtain ⟨t, ht, _, _, hkeep⟩ := expand_run_ok A s data out hA hint hg
      rw [ht]
      exact hkeep
    · rw [expand_run_fail A s data out hA hint (by omega)] at hok
      cases hok

/-- C20 at `A = [0]`: squeezing `(1, 2^31 - 1)` keeps the size `2^31 - 1`, and
expanding `(2^31)` keeps the size `2^31`. -/
theorem C20_squeeze_narrows_sizes_witness :
    AxisSet [0] ∧ (∀ a ∈ ([0] : List Int), IsInt a) ∧
    (∀ d ∈ ([1, 2147483647] : List Int), IsInt d) ∧
    (SqueezeOp.RunOnDevice ⟨[0]⟩ ⟨[1, 2147483647], []⟩ ⟨[], []⟩).result = .ok true ∧
    (SqueezeOp.RunOnDevice ⟨[0]⟩ ⟨[1, 2147483647], []⟩ ⟨[], []⟩).output.dims =
      keep [0] [1, 2147483647] ∧
    (ExpandDimsOp.RunOnDevice ⟨[0]⟩ ⟨[2147483648], []⟩ ⟨[], []⟩).result = .ok true ∧
    keep [0] (ExpandDimsOp.RunOnDevice ⟨[0]⟩ ⟨[2147483648], []⟩ ⟨[], []⟩).output.dims =
      [2147483648] :=
  have hA : AxisSet [0] := ⟨by decide, by decide, by decide⟩
  ⟨hA, by decide, by decide, by decide,
    (C20_squeeze_narrows_sizes [0] [1, 2147483647] [] ⟨[], []⟩ hA (by decide)).2.1
      (by decide) (by decide),
    by decide,
    (C20_squeeze_narrows_sizes [0] [2147483648] [] ⟨[], []⟩ hA (by decide)).2.2 (by decide)⟩

end caffe2
